import Mathlib

/-!
Verification of the article fetching / conversion pipeline
(`article_fetcher_gui.py`, `fetch_article.py`).

Strings are modelled as `String` / `List Char`; the Python regular
expression passes used by the source are embedded as executable scanners
over `List Char` with the same leftmost-match / greedy-backtracking
semantics on the restricted patterns the source actually uses.
External effects (network, filesystem, subprocesses, clock) are passed
in as explicit oracle parameters.
-/

set_option maxHeartbeats 1000000

namespace ArticleFetcher

/-- Python `str.isspace` characters: the whitespace class used by
`str.strip`, `str.rstrip` and the regex class `\s` on unicode strings. -/
def pyIsSpace (c : Char) : Bool :=
  [9, 10, 11, 12, 13, 28, 29, 30, 31, 32, 133, 160, 5760,
   8192, 8193, 8194, 8195, 8196, 8197, 8198, 8199, 8200, 8201, 8202,
   8232, 8233, 8239, 8287, 12288].contains c.toNat

/-- Python `str.rstrip()`. -/
def pyRstrip (l : List Char) : List Char :=
  (l.reverse.dropWhile pyIsSpace).reverse

/-- Python `str.lstrip()`. -/
def pyLstrip (l : List Char) : List Char :=
  l.dropWhile pyIsSpace

/-- Python `str.strip()`. -/
def pyStrip (l : List Char) : List Char :=
  pyLstrip (pyRstrip l)

/-- Substring test on character lists; models the Python `in`
operator on `str`. -/
def hasSubstr (pat : List Char) : List Char → Bool
  | [] => pat.isEmpty
  | c :: rest => pat.isPrefixOf (c :: rest) || hasSubstr pat rest

/-- `GeneralArticleFetcher._detect_source_type` (article_fetcher_gui.py
739-750): ordered substring checks on the URL; `html` is accepted and
ignored, exactly as in the source. -/
def detect_source_type (url html : String) : String :=
  if hasSubstr "mp.weixin.qq.com".data url.data then "wechat"
  else if hasSubstr "notion.com".data url.data || hasSubstr "notion.site".data url.data then "notion"
  else if hasSubstr "medium.com".data url.data then "medium"
  else if hasSubstr "zhuanlan.zhihu.com".data url.data then "zhihu"
  else "general"

/-- The characters removed by the first pass of `_sanitize_filename`
(the sub of the class [<>:"/\\|?*] with the empty string). -/
def forbiddenFilenameChars : List Char := ['<', '>', ':', '"', '/', '\\', '|', '?', '*']

/-- One pass of `re.sub(r'\s+', '_', s)`: every maximal run of
whitespace becomes a single underscore.  The boolean records whether the
previous character belonged to a whitespace run. -/
def wsRepGo : Bool → List Char → List Char
  | _, [] => []
  | inWs, c :: rest =>
    if pyIsSpace c then
      if inWs then wsRepGo true rest else '_' :: wsRepGo true rest
    else c :: wsRepGo false rest

/-- `GeneralArticleFetcher._sanitize_filename` (article_fetcher_gui.py
1305-1311). -/
def sanitize_filename (title : String) : String :=
  let s1 := title.data.filter (fun c => !(forbiddenFilenameChars.contains c))
  let s2 := wsRepGo false s1
  let s3 := if s2.length > 100 then s2.take 100 else s2
  if s3.isEmpty then "article" else String.mk s3

/-- Leftmost split at a pattern: `splitOnFirst pat l = some (a, b)` when
`l = a ++ pat ++ b` and `pat` occurs nowhere earlier; models the
non-greedy capture `(.*?)` up to a literal delimiter. -/
def splitOnFirst (pat : List Char) : List Char → Option (List Char × List Char)
  | [] => none
  | c :: rest =>
    if pat.isPrefixOf (c :: rest) then some ([], (c :: rest).drop pat.length)
    else
      match splitOnFirst pat rest with
      | some (a, b) => some (c :: a, b)
      | none => none

/-- The sub deleting every match of the pattern <[^>]+>: remove every tag-like span (a `<`,
one or more non-`>` characters, then `>`).  Fuelled scanner; the fuel is
always instantiated with the input length, which suffices because every
step consumes at least one character. -/
def stripTagsGo : Nat → List Char → List Char
  | 0, l => l
  | _ + 1, [] => []
  | fuel + 1, c :: rest =>
    if c = '<' then
      let run := rest.takeWhile (fun d => d ≠ '>')
      match run, rest.drop run.length with
      | _ :: _, _ :: afterGt => stripTagsGo fuel afterGt
      | _, _ => c :: stripTagsGo fuel rest
    else c :: stripTagsGo fuel rest

/-- Tag stripping as applied to a captured title
(deleting every match of <[^>]+> from the captured group). -/
def stripTags (l : List Char) : List Char :=
  stripTagsGo l.length l

/-- The last-resort title rule searching <title>(.*?)</title> in the page,
followed by the cleanup in the source (tag stripping, then strip);
returns `""` when the rule does not match, as the source leaves
`title = ""` in that case. -/
def title_tag_rule (html : String) : String :=
  match splitOnFirst "<title>".data html.data with
  | none => ""
  | some (_, rest) =>
    match splitOnFirst "</title>".data rest with
    | none => ""
    | some (captured, _) => String.mk (pyStrip (stripTags captured))

/-- The last path component of a POSIX-style path string
(`pathlib.PurePath.name`). -/
def pyLastComponent (p : String) : List Char :=
  (p.data.reverse.takeWhile (fun c => c ≠ '/')).reverse

/-- `pathlib.PurePath.suffix`: the final extension, `name[i:]` with
`i = name.rfind('.')` when `0 < i < len(name) - 1`, else the empty
string. -/
def pySuffix (p : String) : String :=
  let name := pyLastComponent p
  let tailRev := name.reverse.takeWhile (fun c => c ≠ '.')
  if ('.' : Char) ∈ name then
    let i := name.length - 1 - tailRev.length
    if 0 < i ∧ i < name.length - 1 then String.mk ('.' :: tailRev.reverse) else ""
  else ""

/-- `pathlib.PurePath.parent` for the simple relative paths used by the
source. -/
def pyParent (p : String) : String :=
  if ('/' : Char) ∈ p.data then
    String.mk (((p.data.reverse.dropWhile (fun c => c ≠ '/')).drop 1).reverse)
  else "."

def pathJoin (a b : String) : String := a ++ "/" ++ b

/-- Python `str.lower()` for the ASCII strings the source lowercases. -/
def pyLower (s : String) : String := String.mk (s.data.map Char.toLower)

/-- The extension → MIME type table of `EpubConverter._get_media_type`
(article_fetcher_gui.py 384-397). -/
def mediaTypes : List (String × String) :=
  [(".jpg", "image/jpeg"), (".jpeg", "image/jpeg"), (".png", "image/png"),
   (".gif", "image/gif"), (".webp", "image/webp"), (".svg", "image/svg+xml"),
   (".avif", "image/avif"), (".bmp", "image/bmp")]

/-- `EpubConverter._get_media_type`. -/
def get_media_type (filename : String) : String :=
  (mediaTypes.lookup (pyLower (pySuffix filename))).getD "application/octet-stream"

/-- One image resource of the fallback EPUB tier (the dict built in
`EpubConverter.convert_to_epub`, article_fetcher_gui.py 659-676). -/
structure ImageInfo where
  original_ref : String
  epub_path : String
  image_data : List Nat
  media_type : String
deriving DecidableEq, Repr

/-- One image-reference step of the resolution loop of the fallback tier
(article_fetcher_gui.py 642-677).  `fs` is the filesystem oracle
(`exists` + `read_bytes`), `conv` the `_convert_image_to_png` oracle
(`none` = conversion failed, fall back to the original bytes). -/
def resolveOne (fs : String → Option (List Nat)) (conv : List Nat → Option (List Nat))
    (i : Nat) (ref imgPath : String) : List ImageInfo :=
  match fs imgPath with
  | none => []
  | some bytes =>
    match conv bytes with
    | some png => [⟨ref, "images/img_" ++ toString i ++ ".png", png, "image/png"⟩]
    | none => [⟨ref, "images/img_" ++ toString i ++ pySuffix imgPath, bytes,
               get_media_type (pySuffix imgPath)⟩]

/-- The image-resolution loop of the fallback tier over `enumerate(image_refs)`:
network references and paths not present on disk are skipped; `i` keeps
the original enumeration index, as in the source. -/
def resolveImagesGo (imagesDir : String) (fs : String → Option (List Nat))
    (conv : List Nat → Option (List Nat)) : Nat → List String → List ImageInfo
  | _, [] => []
  | i, ref :: rest =>
    if ref.startsWith "images/" then
      resolveOne fs conv i ref (pathJoin (pyParent imagesDir) ref) ++
        resolveImagesGo imagesDir fs conv (i + 1) rest
    else if ref.startsWith "http" then
      resolveImagesGo imagesDir fs conv (i + 1) rest
    else
      resolveOne fs conv i ref (pathJoin imagesDir ref) ++
        resolveImagesGo imagesDir fs conv (i + 1) rest

/-- `if images_dir and image_refs:` guard plus the loop. -/
def resolveImages (imageRefs : List String) (imagesDir : Option String)
    (fs : String → Option (List Nat)) (conv : List Nat → Option (List Nat)) :
    List ImageInfo :=
  match imagesDir with
  | none => []
  | some d => if imageRefs.isEmpty then [] else resolveImagesGo d fs conv 0 imageRefs

/-- `EpubConverter._create_container_xml`. -/
def container_xml : String :=
"<?xml version=\"1.0\" encoding=\"UTF-8\"?>\n<container version=\"1.0\" xmlns=\"urn:oasis:names:tc:opendocument:xmlns:container\">\n  <rootfiles>\n    <rootfile full-path=\"OEBPS/content.opf\" media-type=\"application/oebps-package+xml\"/>\n  </rootfiles>\n</container>"

/-- The manifest item lines of `EpubConverter._create_content_opf`:
three fixed entries plus one `<item>` per image. -/
def opfManifestItems (images : List ImageInfo) : String :=
  String.intercalate "\n"
    ["    <item id=\"content\" href=\"content.xhtml\" media-type=\"application/xhtml+xml\"/>",
     "    <item id=\"nav\" href=\"nav.xhtml\" media-type=\"application/xhtml+xml\" properties=\"nav\"/>",
     "    <item id=\"ncx\" href=\"toc.ncx\" media-type=\"application/x-dtbncx+xml\"/>"] ++
  String.join (images.enum.map (fun p =>
    "\n    <item id=\"img" ++ toString p.1 ++ "\" href=\"" ++ p.2.epub_path ++
    "\" media-type=\"" ++ p.2.media_type ++ "\"/>"))

/-- `EpubConverter._create_content_opf`; `nowIso` is the
`dcterms:modified` timestamp the source reads from the clock. -/
def create_content_opf (title author bookId nowIso : String)
    (images : List ImageInfo) : String :=
"<?xml version=\"1.0\" encoding=\"UTF-8\"?>\n<package xmlns=\"http://www.idpf.org/2007/opf\" version=\"3.0\" unique-identifier=\"BookId\">\n  <metadata xmlns:dc=\"http://purl.org/dc/elements/1.1/\">\n    <dc:title>" ++ title ++ "</dc:title>\n    <dc:creator>" ++ author ++ "</dc:creator>\n    <dc:language>zh-CN</dc:language>\n    <dc:identifier id=\"BookId\">urn:uuid:" ++ bookId ++ "</dc:identifier>\n    <meta property=\"dcterms:modified\">" ++ nowIso ++ "</meta>\n  </metadata>\n  <manifest>\n" ++ opfManifestItems images ++ "\n  </manifest>\n  <spine toc=\"ncx\">\n    <itemref idref=\"content\"/>\n  </spine>\n</package>"

/-- `EpubConverter._create_nav_xhtml`. -/
def create_nav_xhtml (title : String) : String :=
"<?xml version=\"1.0\" encoding=\"UTF-8\"?>\n<!DOCTYPE html>\n<html xmlns=\"http://www.w3.org/1999/xhtml\" xmlns:epub=\"http://www.idpf.org/2007/ops\">\n<head>\n  <title>Table of Contents</title>\n</head>\n<body>\n  <nav epub:type=\"toc\">\n    <h1>Table of Contents</h1>\n    <ol>\n      <li><a href=\"content.xhtml\">" ++ title ++ "</a></li>\n    </ol>\n  </nav>\n</body>\n</html>"

/-- `EpubConverter._create_toc_ncx`. -/
def create_toc_ncx (title bookId : String) : String :=
"<?xml version=\"1.0\" encoding=\"UTF-8\"?>\n<ncx xmlns=\"http://www.daisy.org/z3986/2005/ncx/\" version=\"2005-1\">\n  <head>\n    <meta name=\"dtb:uid\" content=\"urn:uuid:" ++ bookId ++ "\"/>\n    <meta name=\"dtb:depth\" content=\"1\"/>\n    <meta name=\"dtb:totalPageCount\" content=\"0\"/>\n    <meta name=\"dtb:maxPageNumber\" content=\"0\"/>\n  </head>\n  <docTitle>\n    <text>" ++ title ++ "</text>\n  </docTitle>\n  <navMap>\n    <navPoint id=\"navpoint-1\" playOrder=\"1\">\n      <navLabel>\n        <text>" ++ title ++ "</text>\n      </navLabel>\n      <content src=\"content.xhtml\"/>\n    </navPoint>\n  </navMap>\n</ncx>"

/-- `EpubConverter._create_content_xhtml` (the CSS braces of the Python
template are written here as the escapes \x7b and \x7d). -/
def create_content_xhtml (title author sourceUrl date htmlContent : String) : String :=
"<?xml version=\"1.0\" encoding=\"UTF-8\"?>\n<!DOCTYPE html>\n<html xmlns=\"http://www.w3.org/1999/xhtml\">\n<head>\n  <title>" ++ title ++ "</title>\n  <style type=\"text/css\">\n    body \x7b\n      font-family: Georgia, \"Times New Roman\", serif;\n      line-height: 1.6;\n      margin: 1em;\n      padding: 0;\n    \x7d\n    h1 \x7b\n      font-size: 1.5em;\n      margin-top: 0.5em;\n      margin-bottom: 0.5em;\n      text-align: center;\n    \x7d\n    h2 \x7b\n      font-size: 1.3em;\n      margin-top: 1em;\n      border-bottom: 1px solid #ccc;\n    \x7d\n    h3 \x7b font-size: 1.1em; margin-top: 0.8em; \x7d\n    p \x7b margin: 0.5em 0; text-align: justify; \x7d\n    blockquote \x7b\n      margin: 0.5em 2em;\n      padding: 0.5em;\n      border-left: 3px solid #ccc;\n      background: #f9f9f9;\n    \x7d\n    img \x7b\n      max-width: 100%;\n      height: auto;\n      display: block;\n      margin: 1em auto;\n    \x7d\n    hr \x7b\n      border: none;\n      border-top: 1px solid #ccc;\n      margin: 1em 0;\n    \x7d\n    ul, ol \x7b padding-left: 1.5em; \x7d\n    li \x7b margin: 0.3em 0; \x7d\n    a \x7b color: #0066cc; \x7d\n  </style>\n</head>\n<body>\n  <h1>" ++ title ++ "</h1>\n  <p style=\"text-align: center; color: #666; font-size: 0.9em;\">\n    Author: " ++ author ++ " | Source: <a href=\"" ++ sourceUrl ++ "\">" ++ sourceUrl ++ "</a> | Date: " ++ date ++ "\n  </p>\n  <hr/>\n  " ++ htmlContent ++ "\n</body>\n</html>"

/-- Payload of one archive member written by `zipfile.writestr`. -/
inductive EntryData
  | text (s : String)
  | bin (b : List Nat)
deriving DecidableEq, Repr

/-- One member of the produced zip archive; `deflate = false` models
`compress_type=zipfile.ZIP_STORED`, `deflate = true` the default
`ZIP_DEFLATED` of the archive. -/
structure ZipEntry where
  name : String
  payload : EntryData
  deflate : Bool
deriving DecidableEq, Repr

/-- The archive members written by the fallback tier of
`EpubConverter.convert_to_epub` (article_fetcher_gui.py 691-714), in
write order: mimetype stored uncompressed first, then container,
package document, navigation document, legacy TOC, content document,
and one member per resolved image. -/
def buildEpubEntries (title author sourceUrl date bookId nowIso htmlContent : String)
    (images : List ImageInfo) : List ZipEntry :=
  [⟨"mimetype", EntryData.text "application/epub+zip", false⟩,
   ⟨"META-INF/container.xml", EntryData.text container_xml, true⟩,
   ⟨"OEBPS/content.opf", EntryData.text (create_content_opf title author bookId nowIso images), true⟩,
   ⟨"OEBPS/nav.xhtml", EntryData.text (create_nav_xhtml title), true⟩,
   ⟨"OEBPS/toc.ncx", EntryData.text (create_toc_ncx title bookId), true⟩,
   ⟨"OEBPS/content.xhtml", EntryData.text (create_content_xhtml title author sourceUrl date htmlContent), true⟩]
  ++ images.map (fun img => ⟨"OEBPS/" ++ img.epub_path, EntryData.bin img.image_data, true⟩)

/-- Entry predicates used to count the document kinds of claim C3. -/
def isPackageDoc (e : ZipEntry) : Bool := e.name == "OEBPS/content.opf"

def isNavDoc (e : ZipEntry) : Bool := e.name == "OEBPS/nav.xhtml"

def isNcxDoc (e : ZipEntry) : Bool := e.name == "OEBPS/toc.ncx"

/-- An archive member under `OEBPS/images/`. -/
def isImageEntry (e : ZipEntry) : Bool := e.name.data.take 13 == "OEBPS/images/".data

/-- Python `s[:200]`. -/
def pyTake200 (s : String) : String := String.mk (s.data.take 200)

/-- The externally observable outcomes of one delegate-tier run:
whether the tool was found, an exception raised inside the `try` block,
the return codes and stderr of the two pandoc stages, and
existence/size of the produced file. -/
structure PandocEnv where
  found : Bool
  exc : Option String
  stage1_rc : Nat
  stage1_err : String
  stage2_rc : Nat
  stage2_err : String
  out_exists : Bool
  out_size : Nat
deriving DecidableEq, Repr

/-- Control flow of `EpubConverter._convert_with_pandoc`
(article_fetcher_gui.py 457-593) over the subprocess/filesystem oracle:
returns `(success, output path or error detail)`. -/
def convert_with_pandoc (env : PandocEnv) (outputPath : String) : Bool × String :=
  if env.found = false then (false, "Pandoc not found")
  else
    match env.exc with
    | some e => (false, e)
    | none =>
      if env.stage1_rc ≠ 0 then
        (false, "Pandoc MD->HTML failed: " ++ pyTake200 env.stage1_err)
      else if env.stage2_rc ≠ 0 then
        (false, "Pandoc HTML->EPUB failed: " ++ pyTake200 env.stage2_err)
      else if env.out_exists = false || env.out_size = 0 then
        (false, "EPUB file was not created or is empty")
      else (true, outputPath)

/-- Control flow of `EpubConverter.convert_to_epub` (article_fetcher_gui.py
595-721): try the delegate tier when pandoc is available; on its failure
fall through to the fallback tier, whose own failure is an exception
`fallbackExc` caught at 719-721. -/
def convert_to_epub_outcome (env : PandocEnv) (fallbackExc : Option String)
    (outputPath : String) : Bool × String :=
  let delegate : Option (Bool × String) :=
    if env.found then some (convert_with_pandoc env outputPath) else none
  match delegate with
  | some (true, r) => (true, r)
  | _ =>
    match fallbackExc with
    | some e => (false, e)
    | none => (true, outputPath)

/-- The title guard of `GeneralArticleFetcher.fetch_article`
(article_fetcher_gui.py 780-781) and of `main` (fetch_article.py
408-409): whatever the per-profile extraction chain produced, an empty
title is replaced by the fixed placeholder.  The extraction chain is a
pure string function passed as a parameter. -/
def fetch_article_title (extractTitle : String → String) (html : String) : String :=
  let title := extractTitle html
  if title = "" then "未命名文章" else title

/-- The content-type → extension table of
`ImageDownloader.get_image_extension` (article_fetcher_gui.py 52-62). -/
def contentTypeMap : List (String × String) :=
  [("image/jpeg", ".jpg"), ("image/jpg", ".jpg"), ("image/png", ".png"),
   ("image/gif", ".gif"), ("image/webp", ".webp"), ("image/bmp", ".bmp"),
   ("image/svg+xml", ".svg"), ("image/avif", ".avif")]

/-- The alternatives of the extension regex
`\.(jpg|jpeg|png|gif|webp|bmp|svg|avif)(\?|$)`, in source order. -/
def extAlternatives : List String :=
  ["jpg", "jpeg", "png", "gif", "webp", "bmp", "svg", "avif"]

/-- The suffixes `download_image` accepts without renaming
(article_fetcher_gui.py 91). -/
def imageSuffixes : List String :=
  [".jpg", ".jpeg", ".png", ".gif", ".webp", ".bmp", ".svg", ".avif"]

/-- Case-insensitive prefix test against an already-lowercase pattern
(the regex runs with `re.I`). -/
def lowerStarts : List Char → List Char → Bool
  | [], _ => true
  | _ :: _, [] => false
  | p :: ps, c :: cs => (c.toLower == p) && lowerStarts ps cs

/-- One alternation attempt of the extension regex at a fixed position:
the alternative must match case-insensitively and be followed by `?` or
the end of the string. -/
def extMatches (e : String) (l : List Char) : Bool :=
  lowerStarts e.data l &&
    (let rest := l.drop e.data.length
     rest.isEmpty || rest.head? == some '?')

/-- Alternation in source order, as the regex engine tries it. -/
def matchExtAt : List String → List Char → Option String
  | [], _ => none
  | e :: es, l => if extMatches e l then some e else matchExtAt es l

/-- Leftmost search of `\.(jpg|jpeg|png|gif|webp|bmp|svg|avif)(\?|$)`
over the URL; on a match the source returns `'.' + group(1).lower()`. -/
def urlExtScan : List Char → Option String
  | [] => none
  | c :: rest =>
    if c = '.' then
      match matchExtAt extAlternatives rest with
      | some e => some ("." ++ e)
      | none => urlExtScan rest
    else urlExtScan rest

/-- `ImageDownloader.get_image_extension` (article_fetcher_gui.py
50-70): content-type table first (an empty content type is falsy and
skipped), then the URL suffix regex, then the fixed `.jpg` default. -/
def get_image_extension (url content_type : String) : String :=
  match (if content_type ≠ "" then contentTypeMap.lookup content_type else none) with
  | some ext => ext
  | none =>
    match urlExtScan url.data with
    | some e => e
    | none => ".jpg"

/-- `pathlib.PurePath.with_suffix` on a bare file name. -/
def withSuffix (nameOnly ext : String) : String :=
  let sfx := pySuffix nameOnly
  if sfx = "" then nameOnly ++ ext
  else String.mk (nameOnly.data.take (nameOnly.length - sfx.length)) ++ ext

/-- `ImageDownloader.download_image` (article_fetcher_gui.py 72-98)
reduced to its data flow: `resp` is the answer of the network oracle for this
URL — `none` for any failure (connection error, timeout, non-2xx all
raise and are caught), `some (content_type, bytes)` for success.
Returns the final file name (`final_path.name`), or `none` on failure. -/
def download_image (resp : Option (String × List Nat)) (url saveName : String) :
    Option String :=
  match resp with
  | none => none
  | some (ct, _) =>
    let ext := get_image_extension url ct
    if imageSuffixes.contains (pyLower (pySuffix saveName)) then some saveName
    else some (withSuffix saveName ext)

/-- Python dict insertion: overwriting keeps the position of the key,
a new key is appended (insertion order preserved). -/
def dictInsert (k v : String) : List (String × String) → List (String × String)
  | [] => [(k, v)]
  | (k2, v2) :: rest =>
    if k2 = k then (k, v) :: rest else (k2, v2) :: dictInsert k v rest

/-- The value recorded for the URL processed at 1-based position `n`:
`images/<final name>` on success, the URL itself on failure
(article_fetcher_gui.py 119-126). -/
def downloadOutcome (timestamps : Nat → String)
    (net : Nat → String → Option (String × List Nat)) (n : Nat) (url : String) : String :=
  match download_image (net n url) url (timestamps n ++ "_" ++ toString n) with
  | some finalName => "images/" ++ finalName
  | none => url

/-- The download loop of `ImageDownloader.download_images`
(article_fetcher_gui.py 111-128): `i` is the 1-based `enumerate`
counter, `timestamps` the clock oracle giving the `%Y%m%d_%H%M%S_%f`
string of each iteration, `net` the per-request network oracle. -/
def downloadImagesGo (timestamps : Nat → String)
    (net : Nat → String → Option (String × List Nat)) :
    Nat → List String → List (String × String) → List (String × String)
  | _, [], acc => acc
  | i, url :: rest, acc =>
    downloadImagesGo timestamps net (i + 1) rest
      (dictInsert url (downloadOutcome timestamps net i url) acc)

/-- `ImageDownloader.download_images` (article_fetcher_gui.py 100-130);
the progress callback, directory creation and the inter-request delay
are external effects with no bearing on the returned mapping. -/
def download_images (image_urls : List String) (timestamps : Nat → String)
    (net : Nat → String → Option (String × List Nat)) : List (String × String) :=
  if image_urls.isEmpty then [] else downloadImagesGo timestamps net 1 image_urls []

/-- Streaming model of the sub collapsing \n\x7b3,\x7d to two newlines
(clean_markdown, fetch_article.py 219, and _html_to_markdown,
article_fetcher_gui.py 1153): `pending` counts the newlines of the
current run; a flushed run of k newlines is emitted as `min k 2`, which
collapses every run of three or more to exactly two and keeps shorter
runs unchanged, exactly as the greedy leftmost sub does. -/
def collapseGo : List Char → Nat → List Char
  | [], pending => List.replicate (min pending 2) '\n'
  | c :: rest, pending =>
    if c = '\n' then collapseGo rest (pending + 1)
    else List.replicate (min pending 2) '\n' ++ c :: collapseGo rest 0

def collapseNewlines (l : List Char) : List Char := collapseGo l 0

/-- Python split at newlines (`text.split` of a newline). -/
def splitNl : List Char → List (List Char)
  | [] => [[]]
  | c :: rest =>
    if c = '\n' then [] :: splitNl rest
    else
      match splitNl rest with
      | [] => [[c]]
      | l :: ls => (c :: l) :: ls

/-- Python join with a newline. -/
def joinNl : List (List Char) → List Char
  | [] => []
  | [l] => l
  | l :: ls => l ++ '\n' :: joinNl ls

/-- Index of the last newline of `w` (meaningful when `'\n' ∈ w`). -/
def lastNlIdx (w : List Char) : Nat :=
  w.length - 1 - (w.reverse.takeWhile (fun c => c ≠ '\n')).length

/-- The MULTILINE sub rewriting a line-start `>` followed by a
whitespace run that contains a newline into `>` plus a single newline
(clean_markdown, fetch_article.py 227): the greedy \s* backtracks to the
last newline of the run, so the match consumes up to and including that
newline.  Fuelled scanner; every step consumes at least one character,
so fuel = input length suffices. -/
def bqFixGo : Nat → Bool → List Char → List Char
  | 0, _, l => l
  | _ + 1, _, [] => []
  | fuel + 1, atStart, c :: rest =>
    if atStart && (c == '>') then
      (if ('\n' : Char) ∈ rest.takeWhile pyIsSpace then
         c :: '\n' :: bqFixGo fuel true
           (rest.drop (lastNlIdx (rest.takeWhile pyIsSpace) + 1))
       else c :: bqFixGo fuel false rest)
    else if c == '\n' then c :: bqFixGo fuel true rest
    else c :: bqFixGo fuel false rest

def bqFix (l : List Char) : List Char := bqFixGo l.length true l

/-- `clean_markdown` (fetch_article.py 216-228): collapse newline runs,
right-strip every line, rewrite empty blockquote lines, strip. -/
def clean_markdown (text : List Char) : List Char :=
  pyStrip (bqFix (joinNl ((splitNl (collapseNewlines text)).map pyRstrip)))

/-- The final cleanup of `GeneralArticleFetcher._html_to_markdown`
(article_fetcher_gui.py 1152-1157): collapse newline runs, right-strip
every line, then the strip at the return. -/
def md_final_cleanup (l : List Char) : List Char :=
  pyStrip (joinNl ((splitNl (collapseNewlines l)).map pyRstrip))

/-- Number of leading newlines. -/
def leadNl : List Char → Nat
  | [] => 0
  | c :: rest => if c = '\n' then leadNl rest + 1 else 0

/-- Three consecutive newlines start here. -/
def startsTriple (l : List Char) : Bool :=
  decide (l.take 3 = ['\n', '\n', '\n'])

/-- No three consecutive newlines anywhere in the list. -/
def noTriple : List Char → Bool
  | [] => true
  | c :: rest => !(startsTriple (c :: rest)) && noTriple rest

/-- Adjacency condition: a whitespace character other than a newline
never immediately precedes a newline (no line has trailing
whitespace). -/
def wsPairOk (c d : Char) : Bool := (d != '\n') || (c == '\n') || !(pyIsSpace c)

def noWsBeforeNl : List Char → Bool
  | [] => true
  | [_] => true
  | c :: d :: rest => wsPairOk c d && noWsBeforeNl (d :: rest)

/-- The last character, when present, is not whitespace. -/
def lastNotWs (l : List Char) : Bool :=
  match l.reverse with
  | [] => true
  | c :: _ => !(pyIsSpace c)

/-- The quoted capture of (?:data-src|src)="([^"]+)" once the attribute
name and opening quote have matched: the maximal run of non-quote
characters, which must be non-empty and followed by the closing
quote. -/
def captureQuoted (l : List Char) : Option (List Char) :=
  if (l.takeWhile (fun d => d ≠ '"')).isEmpty then none
  else
    match l.drop (l.takeWhile (fun d => d ≠ '"')).length with
    | '"' :: _ => some (l.takeWhile (fun d => d ≠ '"'))
    | _ => none

/-- One position of the search for (?:data-src|src)="([^"]+)" inside an
img tag (process_img_tag, article_fetcher_gui.py 1046): the data-src
alternative is tried before src, as in the pattern. -/
def srcAttrHere (l : List Char) : Option (List Char) :=
  if "data-src=\"".data.isPrefixOf l then captureQuoted (l.drop 10)
  else if "src=\"".data.isPrefixOf l then captureQuoted (l.drop 5)
  else none

/-- One position of the search for alt="([^"]*)" (article_fetcher_gui.py
1056): the capture may be empty but the closing quote must be there. -/
def altAttrHere (l : List Char) : Option (List Char) :=
  if "alt=\"".data.isPrefixOf l then
    (match (l.drop 5).drop ((l.drop 5).takeWhile (fun d => d ≠ '"')).length with
     | '"' :: _ => some ((l.drop 5).takeWhile (fun d => d ≠ '"'))
     | _ => none)
  else none

/-- Leftmost-match scan: try the position matcher at every position,
left to right, as re.search does. -/
def scanFirst (f : List Char → Option (List Char)) : List Char → Option (List Char)
  | [] => none
  | c :: rest =>
    match f (c :: rest) with
    | some v => some v
    | none => scanFirst f rest

/-- `process_img_tag` of `_html_to_markdown` (article_fetcher_gui.py
1043-1059) applied to one matched img tag text: a tag with no
data-src/src attribute is replaced by the empty string; the URL comes
from the leftmost data-src= or src= attribute occurrence; a
protocol-relative URL gets the https scheme; alt defaults to the fixed
placeholder word. -/
def process_img_tag (tag : List Char) : List Char :=
  match scanFirst srcAttrHere tag with
  | none => []
  | some url =>
    "\n\n![".data ++ (((scanFirst altAttrHere tag).getD "图片".data) ++
      ("](".data ++
        ((if "//".data.isPrefixOf url then "https:".data ++ url else url) ++
          ")\n\n".data)))

/-- The sub replacing every match of <img[^>]*> (case-insensitively) by
`process_img_tag` of the matched text (article_fetcher_gui.py 1061).
Fuelled leftmost scan; every step consumes at least one character. -/
def imgSubGo : Nat → List Char → List Char
  | 0, l => l
  | _ + 1, [] => []
  | fuel + 1, c :: rest =>
    if lowerStarts "<img".data (c :: rest) then
      (match ((c :: rest).drop 4).drop
          (((c :: rest).drop 4).takeWhile (fun d => d ≠ '>')).length with
       | '>' :: afterGt =>
         process_img_tag ((c :: rest).take
           (4 + (((c :: rest).drop 4).takeWhile (fun d => d ≠ '>')).length + 1)) ++
           imgSubGo fuel afterGt
       | _ => c :: imgSubGo fuel rest)
    else c :: imgSubGo fuel rest

def img_tag_sub (l : List Char) : List Char := imgSubGo l.length l

/-- findall of the item pattern over an ol body
(replace_ol, article_fetcher_gui.py 1101-1108 and fetch_article.py
320-327): a match needs a li opening tag — the three tag characters, a
run of non-gt characters closed by the gt sign — then a lazily captured
body up to the first closing li tag; leftmost, non-overlapping.
Fuelled scan. -/
def findLisGo : Nat → List Char → List (List Char)
  | 0, _ => []
  | _ + 1, [] => []
  | fuel + 1, c :: rest =>
    if "<li".data.isPrefixOf (c :: rest) then
      (match ((c :: rest).drop 3).drop
          (((c :: rest).drop 3).takeWhile (fun d => d ≠ '>')).length with
       | '>' :: afterGt =>
         (match splitOnFirst "</li>".data afterGt with
          | some (content, rest2) => content :: findLisGo fuel rest2
          | none => findLisGo fuel rest)
       | _ => findLisGo fuel rest)
    else findLisGo fuel rest

def findLis (l : List Char) : List (List Char) := findLisGo l.length l

/-- The renumbering loop of `replace_ol`: `f"{i}. {item.strip()}\n"`
for `i` counted from 1 by `enumerate(items, 1)`. -/
def renderItems : Nat → List (List Char) → List Char
  | _, [] => []
  | i, item :: rest =>
    (toString i).data ++ ('.' :: ' ' :: (pyStrip item ++ ('\n' :: renderItems (i + 1) rest)))

/-- `replace_ol` applied to the captured body of an ol element. -/
def replace_ol (body : List Char) : List Char :=
  '\n' :: renderItems 1 (findLis body)

/-- An ol body built from source items, each carrying its own attribute
text (where any source numbering such as a value attribute lives) and
its item text. -/
def mkOlBody : List (List Char × List Char) → List Char
  | [] => []
  | (attrs, text) :: rest =>
    "<li".data ++ (attrs ++ ('>' :: (text ++ ("</li>".data ++ mkOlBody rest))))

/-- The sub replacing every li element by a bulleted line
(article_fetcher_gui.py 1099 and fetch_article.py 317): a li opening
tag, a lazily captured body up to the first closing li tag, replaced by
a dash, the captured body and a newline.  Fuelled leftmost scan with
the same matching as the item scan above. -/
def liSubGo : Nat → List Char → List Char
  | 0, l => l
  | _ + 1, [] => []
  | fuel + 1, c :: rest =>
    if "<li".data.isPrefixOf (c :: rest) then
      (match ((c :: rest).drop 3).drop
          (((c :: rest).drop 3).takeWhile (fun d => d ≠ '>')).length with
       | '>' :: afterGt =>
         (match splitOnFirst "</li>".data afterGt with
          | some (content, rest2) => "- ".data ++ (content ++ ('\n' :: liSubGo fuel rest2))
          | none => c :: liSubGo fuel rest)
       | _ => c :: liSubGo fuel rest)
    else c :: liSubGo fuel rest

def liSub (l : List Char) : List Char := liSubGo l.length l

/-- The sub replacing every ol element by `replace_ol` of its lazily
captured body (article_fetcher_gui.py 1108 and fetch_article.py 327). -/
def olSubGo : Nat → List Char → List Char
  | 0, l => l
  | _ + 1, [] => []
  | fuel + 1, c :: rest =>
    if "<ol".data.isPrefixOf (c :: rest) then
      (match ((c :: rest).drop 3).drop
          (((c :: rest).drop 3).takeWhile (fun d => d ≠ '>')).length with
       | '>' :: afterGt =>
         (match splitOnFirst "</ol>".data afterGt with
          | some (body, rest2) => replace_ol body ++ olSubGo fuel rest2
          | none => c :: olSubGo fuel rest)
       | _ => c :: olSubGo fuel rest)
    else c :: olSubGo fuel rest

def olSub (l : List Char) : List Char := olSubGo l.length l

/-- The list-handling stage of the Markdown transform in source order
for fragments without ul markup (on which the ul sub at
article_fetcher_gui.py 1098 is the identity): the li sub at line 1099
runs before the ol sub at line 1108, in both sources. -/
def list_stage (l : List Char) : List Char := olSub (liSub l)

/-- A quote of either kind, the character class of the img src regex of
`_extract_image_urls`. -/
def isUrlQuote (c : Char) : Bool := c == '"' || c == '\''

/-- The quote-capture-quote part of the pattern src=["..']([^"..']+)["..']
once src= has matched: an opening quote of either kind, a non-empty
maximal run free of both quote kinds, then a closing quote of either
kind; returns the capture and the remainder after the closing quote. -/
def srcCapAt : List Char → Option (List Char × List Char)
  | [] => none
  | q :: rest =>
    if isUrlQuote q then
      (if (rest.takeWhile (fun d => !(isUrlQuote d))).isEmpty then none
       else
         match rest.drop (rest.takeWhile (fun d => !(isUrlQuote d))).length with
         | _ :: rest2 => some (rest.takeWhile (fun d => !(isUrlQuote d)), rest2)
         | [] => none)
    else none

/-- The greedy backtracking of [^>]* inside the img src pattern: the
engine starts at the full non-gt run and walks the offset down until
src= (case-insensitively) followed by a quoted capture matches. -/
def srcSearchBack (afterImg : List Char) : Nat → Option (List Char × List Char)
  | 0 =>
    if lowerStarts "src=".data afterImg then srcCapAt (afterImg.drop 4) else none
  | k + 1 =>
    match (if lowerStarts "src=".data (afterImg.drop (k + 1)) then
        srcCapAt (afterImg.drop (k + 1 + 4)) else none) with
    | some r => some r
    | none => srcSearchBack afterImg k

/-- One position of the finditer scan of `_extract_image_urls`
(article_fetcher_gui.py 1006): the img tag opening (case-insensitive),
then the backtracking search for the src attribute. -/
def imgSrcMatchAt (l : List Char) : Option (List Char × List Char) :=
  if lowerStarts "<img".data l then
    srcSearchBack (l.drop 4) ((l.drop 4).takeWhile (fun d => d ≠ '>')).length
  else none

/-- finditer: leftmost non-overlapping matches, resuming after each
match end.  Fuelled scan. -/
def findImgSrcsGo : Nat → List Char → List (List Char)
  | 0, _ => []
  | _ + 1, [] => []
  | fuel + 1, c :: rest =>
    match imgSrcMatchAt (c :: rest) with
    | some (url, rest2) => url :: findImgSrcsGo fuel rest2
    | none => findImgSrcsGo fuel rest

def findImgSrcs (l : List Char) : List (List Char) := findImgSrcsGo l.length l

/-- Python str.replace: non-overlapping left-to-right replacement,
resuming after each inserted replacement.  Fuelled scan (patterns here
are never empty). -/
def replaceAllGo (pat rep : List Char) : Nat → List Char → List Char
  | 0, l => l
  | _ + 1, [] => []
  | fuel + 1, c :: rest =>
    if pat.isPrefixOf (c :: rest) then
      rep ++ replaceAllGo pat rep fuel ((c :: rest).drop pat.length)
    else c :: replaceAllGo pat rep fuel rest

def pyReplace (l pat rep : List Char) : List Char := replaceAllGo pat rep l.length l

/-- The four entity replacements of `_extract_image_urls`
(article_fetcher_gui.py 1012-1015), applied in source order. -/
def decode4 (u : List Char) : List Char :=
  pyReplace (pyReplace (pyReplace (pyReplace u "&amp;".data "&".data)
    "&lt;".data "<".data) "&gt;".data ">".data) "&quot;".data "\"".data

/-- Scheme of a scheme://host/... URL as `urllib.parse.urlparse` reads
it for the well-formed base URLs the fetcher passes. -/
def urlScheme (base : String) : List Char :=
  match splitOnFirst "://".data base.data with
  | some (s, _) => s
  | none => []

/-- Network location of a scheme://host/... URL. -/
def urlNetloc (base : String) : List Char :=
  match splitOnFirst "://".data base.data with
  | some (_, rest) => rest.takeWhile (fun c => c ≠ '/' ∧ c ≠ '?' ∧ c ≠ '#')
  | none => []

/-- `urllib.parse.urljoin` for a root-relative reference (the only shape
the source joins) against a scheme://host/... base. -/
def urljoinRoot (base : String) (url : List Char) : List Char :=
  urlScheme base ++ ("://".data ++ (urlNetloc base ++ url))

/-- The per-URL processing of `_extract_image_urls`
(article_fetcher_gui.py 1007-1031): skip data URIs, decode the four
core entities, expand protocol-relative URLs to https, resolve
root-relative paths against the base (reconstructing the image-proxy
path against the scheme and host of the base), drop other relative
forms. -/
def processImgUrl (base : Option String) (url : List Char) : Option (List Char) :=
  if "data:".data.isPrefixOf url then none
  else if "//".data.isPrefixOf (decode4 url) then some ("https:".data ++ decode4 url)
  else if "/".data.isPrefixOf (decode4 url) then
    (match base with
     | some b =>
       if hasSubstr "/_next/image?url=".data (decode4 url) then
         some (urlScheme b ++ ("://".data ++ (urlNetloc b ++ decode4 url)))
       else some (urljoinRoot b (decode4 url))
     | none => none)
  else if "http".data.isPrefixOf (decode4 url) then some (decode4 url)
  else none

/-- The accumulation loop of `_extract_image_urls`: first-seen order
with duplicates dropped (`if url not in urls: urls.append(url)`). -/
def extractGo (base : Option String) : List (List Char) → List (List Char) → List (List Char)
  | [], acc => acc
  | u :: rest, acc =>
    match processImgUrl base u with
    | none => extractGo base rest acc
    | some v => extractGo base rest (if v ∈ acc then acc else acc ++ [v])

/-- `GeneralArticleFetcher._extract_image_urls` (article_fetcher_gui.py
1000-1035). -/
def extract_image_urls (html : String) (base : Option String) : List (List Char) :=
  extractGo base (findImgSrcs html.data) []

end ArticleFetcher

namespace ArticleFetcher

/-! Helper lemmas. -/

theorem wsRepGo_mem {c : Char} : ∀ (b : Bool) (l : List Char),
    c ∈ wsRepGo b l → c = '_' ∨ (c ∈ l ∧ pyIsSpace c = false) := by
  intro b l
  induction l generalizing b with
  | nil => intro h; simp [wsRepGo] at h
  | cons d rest ih =>
    intro h
    by_cases hd : pyIsSpace d
    · cases b with
      | true =>
        simp [wsRepGo, hd] at h
        rcases ih true h with h1 | ⟨h2, h3⟩
        · exact Or.inl h1
        · exact Or.inr ⟨List.mem_cons_of_mem _ h2, h3⟩
      | false =>
        simp [wsRepGo, hd] at h
        rcases h with h | h
        · exact Or.inl h
        · rcases ih true h with h1 | ⟨h2, h3⟩
          · exact Or.inl h1
          · exact Or.inr ⟨List.mem_cons_of_mem _ h2, h3⟩
    · simp [wsRepGo, hd] at h
      rcases h with h | h
      · subst h
        exact Or.inr ⟨List.mem_cons_self _ _, by simpa using hd⟩
      · rcases ih false h with h1 | ⟨h2, h3⟩
        · exact Or.inl h1
        · exact Or.inr ⟨List.mem_cons_of_mem _ h2, h3⟩

/-- Claim C1: for every URL string, `_detect_source_type` returns the
profile of the first known host fragment the URL contains (wechat for
mp.weixin.qq.com, notion for notion.com/notion.site, medium for
medium.com, zhihu for zhuanlan.zhihu.com); when the URL contains none of
these fragments it returns "general"; the result is always one of the
five profiles, so classification is total and never fails. -/
theorem detect_source_type_spec :
    ∀ url html : String,
      (hasSubstr "mp.weixin.qq.com".data url.data = true →
        detect_source_type url html = "wechat") ∧
      (hasSubstr "mp.weixin.qq.com".data url.data = false →
        (hasSubstr "notion.com".data url.data = true ∨
         hasSubstr "notion.site".data url.data = true) →
        detect_source_type url html = "notion") ∧
      (hasSubstr "mp.weixin.qq.com".data url.data = false →
        hasSubstr "notion.com".data url.data = false →
        hasSubstr "notion.site".data url.data = false →
        hasSubstr "medium.com".data url.data = true →
        detect_source_type url html = "medium") ∧
      (hasSubstr "mp.weixin.qq.com".data url.data = false →
        hasSubstr "notion.com".data url.data = false →
        hasSubstr "notion.site".data url.data = false →
        hasSubstr "medium.com".data url.data = false →
        hasSubstr "zhuanlan.zhihu.com".data url.data = true →
        detect_source_type url html = "zhihu") ∧
      (hasSubstr "mp.weixin.qq.com".data url.data = false →
        hasSubstr "notion.com".data url.data = false →
        hasSubstr "notion.site".data url.data = false →
        hasSubstr "medium.com".data url.data = false →
        hasSubstr "zhuanlan.zhihu.com".data url.data = false →
        detect_source_type url html = "general") ∧
      detect_source_type url html ∈
        (["wechat", "notion", "medium", "zhihu", "general"] : List String) := by
  intro url html
  refine ⟨?_, ?_, ?_, ?_, ?_, ?_⟩
  · intro h; simp [detect_source_type, h]
  · intro h1 h2; rcases h2 with h2 | h2 <;> simp [detect_source_type, h1, h2]
  · intro h1 h2 h3 h4; simp [detect_source_type, h1, h2, h3, h4]
  · intro h1 h2 h3 h4 h5; simp [detect_source_type, h1, h2, h3, h4, h5]
  · intro h1 h2 h3 h4 h5; simp [detect_source_type, h1, h2, h3, h4, h5]
  · unfold detect_source_type
    split
    · simp
    · split
      · simp
      · split
        · simp
        · split <;> simp

/-- Witness for C1: the theorem applied to one concrete URL of each
class, discharging the substring hypotheses by computation. -/
theorem detect_source_type_spec_witness :
    detect_source_type "https://mp.weixin.qq.com/s/x" "" = "wechat" ∧
    detect_source_type "https://www.notion.site/p" "" = "notion" ∧
    detect_source_type "https://medium.com/a/b" "" = "medium" ∧
    detect_source_type "https://zhuanlan.zhihu.com/p/1" "" = "zhihu" ∧
    detect_source_type "https://example.org/a" "" = "general" :=
  ⟨(detect_source_type_spec "https://mp.weixin.qq.com/s/x" "").1 (by decide),
   (detect_source_type_spec "https://www.notion.site/p" "").2.1 (by decide)
     (Or.inr (by decide)),
   (detect_source_type_spec "https://medium.com/a/b" "").2.2.1 (by decide)
     (by decide) (by decide) (by decide),
   (detect_source_type_spec "https://zhuanlan.zhihu.com/p/1" "").2.2.2.1 (by decide)
     (by decide) (by decide) (by decide) (by decide),
   (detect_source_type_spec "https://example.org/a" "").2.2.2.2.1 (by decide)
     (by decide) (by decide) (by decide) (by decide)⟩

/-- Claim C2: for every input HTML string (the extraction chain being a
pure total function, extraction cannot raise), the title produced by
`fetch_article` is non-empty: when the extraction chain yields the empty
string — in particular when no title rule matches — the fixed
placeholder is used.  The two concrete conjuncts exercise the last-resort
`<title>` rule: an effectively empty title falls back to the
placeholder, a matching one is kept. -/
theorem fetch_article_title_spec :
    (∀ (extractTitle : String → String) (html : String),
      fetch_article_title extractTitle html ≠ "") ∧
    fetch_article_title title_tag_rule "<title> <b> </b> </title>" = "未命名文章" ∧
    fetch_article_title title_tag_rule "<html><title>Hello</title></html>" = "Hello" := by
  refine ⟨?_, by decide, by decide⟩
  intro f html
  unfold fetch_article_title
  by_cases h : f html = ""
  · simp [h]
  · simpa [h] using h

theorem sanitizeTail_spec (s3 : List Char) (h100 : s3.length ≤ 100)
    (hmem : ∀ c ∈ s3, c ∉ forbiddenFilenameChars ∧ pyIsSpace c = false) :
    (if s3.isEmpty then "article" else String.mk s3) ≠ "" ∧
    (if s3.isEmpty then "article" else String.mk s3).length ≤ 100 ∧
    (∀ c ∈ (if s3.isEmpty then "article" else String.mk s3).data,
      c ∉ forbiddenFilenameChars ∧ pyIsSpace c = false) := by
  by_cases h : s3.isEmpty = true
  · simp only [h, if_pos]
    exact ⟨by decide, by decide, by decide⟩
  · rw [if_neg h]
    refine ⟨?_, ?_, ?_⟩
    · intro hcon
      apply h
      have : s3 = ([] : List Char) := by
        have := congrArg String.data hcon
        simpa using this
      simp [this]
    · simpa [String.length] using h100
    · intro c hc
      exact hmem c (by simpa using hc)

/-- Claim C10: for every title string, `_sanitize_filename` returns a
non-empty string of at most 100 characters containing none of the
characters `< > : " / \ | ? *` and no whitespace (whitespace runs having
been replaced by single underscores); when nothing survives
sanitization, the fixed name "article" is returned, as the concrete
conjunct shows. -/
theorem sanitize_filename_spec :
    (∀ title : String,
      sanitize_filename title ≠ "" ∧
      (sanitize_filename title).length ≤ 100 ∧
      (∀ c ∈ (sanitize_filename title).data,
        c ∉ forbiddenFilenameChars ∧ pyIsSpace c = false)) ∧
    sanitize_filename "<>:\"/\\|?*" = "article" ∧
    sanitize_filename "a b\tc" = "a_b_c" := by
  refine ⟨?_, by decide, by decide⟩
  intro title
  unfold sanitize_filename
  set s1 := title.data.filter (fun c => !(forbiddenFilenameChars.contains c)) with hs1
  set s2 := wsRepGo false s1 with hs2
  set s3 := (if s2.length > 100 then s2.take 100 else s2 : List Char) with hs3
  have hmem : ∀ c ∈ s3, c ∉ forbiddenFilenameChars ∧ pyIsSpace c = false := by
    intro c hc
    have hc2 : c ∈ s2 := by
      rw [hs3] at hc
      by_cases h : s2.length > 100
      · simp [h] at hc; exact List.mem_of_mem_take hc
      · simpa [h] using hc
    rcases wsRepGo_mem false s1 hc2 with h | ⟨h1, h2⟩
    · subst h; exact ⟨by decide, by decide⟩
    · refine ⟨?_, h2⟩
      rw [hs1] at h1
      have := List.of_mem_filter h1
      simpa using this
  have hlen : s3.length ≤ 100 := by
    rw [hs3]
    by_cases h : s2.length > 100
    · simp [h]
    · simp [h]; omega
  exact sanitizeTail_spec s3 hlen hmem

theorem string_append_assoc (a b c : String) : (a ++ b) ++ c = a ++ (b ++ c) := by
  apply String.ext
  simp [String.data_append, List.append_assoc]

theorem resolveOne_shape (fs : String → Option (List Nat))
    (conv : List Nat → Option (List Nat)) (i : Nat) (ref imgPath : String) :
    ∀ img ∈ resolveOne fs conv i ref imgPath,
      ∃ t : String, img.epub_path = "images/img_" ++ t := by
  intro img hmem
  cases hfs : fs imgPath with
  | none => simp [resolveOne, hfs] at hmem
  | some bytes =>
    cases hcv : conv bytes with
    | some png =>
      simp [resolveOne, hfs, hcv] at hmem
      subst hmem
      exact ⟨toString i ++ ".png", string_append_assoc _ _ _⟩
    | none =>
      simp [resolveOne, hfs, hcv] at hmem
      subst hmem
      exact ⟨toString i ++ pySuffix imgPath, string_append_assoc _ _ _⟩

theorem resolveImagesGo_shape (dir : String) (fs : String → Option (List Nat))
    (conv : List Nat → Option (List Nat)) :
    ∀ (refs : List String) (i : Nat), ∀ img ∈ resolveImagesGo dir fs conv i refs,
      ∃ t : String, img.epub_path = "images/img_" ++ t := by
  intro refs
  induction refs with
  | nil => intro i img hmem; simp [resolveImagesGo] at hmem
  | cons ref rest ih =>
    intro i img hmem
    rw [resolveImagesGo] at hmem
    by_cases h1 : ref.startsWith "images/"
    · rw [if_pos h1] at hmem
      rcases List.mem_append.mp hmem with h | h
      · exact resolveOne_shape _ _ _ _ _ img h
      · exact ih (i + 1) img h
    · rw [if_neg h1] at hmem
      by_cases h2 : ref.startsWith "http"
      · rw [if_pos h2] at hmem
        exact ih (i + 1) img hmem
      · rw [if_neg h2] at hmem
        rcases List.mem_append.mp hmem with h | h
        · exact resolveOne_shape _ _ _ _ _ img h
        · exact ih (i + 1) img h

theorem resolveImages_shape (refs : List String) (dir : Option String)
    (fs : String → Option (List Nat)) (conv : List Nat → Option (List Nat)) :
    ∀ img ∈ resolveImages refs dir fs conv,
      ∃ t : String, img.epub_path = "images/img_" ++ t := by
  intro img hmem
  cases dir with
  | none => simp [resolveImages] at hmem
  | some d =>
    cases h : refs.isEmpty with
    | true => simp [resolveImages, h] at hmem
    | false =>
      simp only [resolveImages, h, Bool.false_eq_true, if_false] at hmem
      exact resolveImagesGo_shape d fs conv refs 0 img hmem

theorem strlit_oebps : ("OEBPS/" : String) ++ "images/img_" = "OEBPS/images/img_" := by
  decide

theorem imgEntry_take13 (t : String) :
    ("OEBPS/" ++ ("images/img_" ++ t)).data.take 13 = "OEBPS/images/".data := by
  rw [← string_append_assoc, strlit_oebps, String.data_append,
    List.take_append_of_le_length (by decide)]
  decide

theorem imgEntry_name_ne (t : String) (nm : String)
    (hnm : nm.data.take 13 ≠ "OEBPS/images/".data) :
    ("OEBPS/" ++ ("images/img_" ++ t)) ≠ nm := by
  intro h
  apply hnm
  rw [← h, imgEntry_take13]

/-- Claim C3: in the fallback-tier EPUB archive the first member is named
exactly "mimetype", stored without compression, with content
"application/epub+zip"; every other member is compressed; and the
archive holds exactly one package document (content.opf), exactly one
navigation document (nav.xhtml), exactly one legacy TOC document
(toc.ncx) and exactly one member per resolved image. -/
theorem epub_fallback_archive_spec :
    ∀ (title author sourceUrl date bookId nowIso htmlContent : String)
      (refs : List String) (dir : Option String)
      (fs : String → Option (List Nat)) (conv : List Nat → Option (List Nat)),
      (buildEpubEntries title author sourceUrl date bookId nowIso htmlContent
        (resolveImages refs dir fs conv)).head? =
          some ⟨"mimetype", EntryData.text "application/epub+zip", false⟩ ∧
      (∀ e ∈ (buildEpubEntries title author sourceUrl date bookId nowIso htmlContent
        (resolveImages refs dir fs conv)).tail, e.deflate = true) ∧
      (buildEpubEntries title author sourceUrl date bookId nowIso htmlContent
        (resolveImages refs dir fs conv)).countP isPackageDoc = 1 ∧
      (buildEpubEntries title author sourceUrl date bookId nowIso htmlContent
        (resolveImages refs dir fs conv)).countP isNavDoc = 1 ∧
      (buildEpubEntries title author sourceUrl date bookId nowIso htmlContent
        (resolveImages refs dir fs conv)).countP isNcxDoc = 1 ∧
      (buildEpubEntries title author sourceUrl date bookId nowIso htmlContent
        (resolveImages refs dir fs conv)).countP isImageEntry =
          (resolveImages refs dir fs conv).length := by
  intro title author sourceUrl date bookId nowIso htmlContent refs dir fs conv
  have hshape := resolveImages_shape refs dir fs conv
  set images := resolveImages refs dir fs conv with himgs
  have hmap0 : ∀ p : ZipEntry → Bool,
      (∀ t : String, ∀ img : ImageInfo,
        p ⟨"OEBPS/" ++ ("images/img_" ++ t), EntryData.bin img.image_data, true⟩ = false) →
      (images.map (fun img =>
        (⟨"OEBPS/" ++ img.epub_path, EntryData.bin img.image_data, true⟩ : ZipEntry))).countP p = 0 := by
    intro p hp
    rw [List.countP_eq_zero]
    intro e he
    rcases List.mem_map.mp he with ⟨img, hin, rfl⟩
    rcases hshape img hin with ⟨t, ht⟩
    rw [ht]
    simp [hp t img]
  refine ⟨rfl, ?_, ?_, ?_, ?_, ?_⟩
  · intro e he
    simp only [buildEpubEntries, List.cons_append, List.nil_append,
      List.tail_cons, List.mem_cons] at he
    rcases he with rfl | rfl | rfl | rfl | rfl | h
    · rfl
    · rfl
    · rfl
    · rfl
    · rfl
    · rcases List.mem_map.mp h with ⟨img, _, rfl⟩
      rfl
  · unfold buildEpubEntries
    rw [List.countP_append]
    have hfix : List.countP isPackageDoc
        [(⟨"mimetype", EntryData.text "application/epub+zip", false⟩ : ZipEntry),
         ⟨"META-INF/container.xml", EntryData.text container_xml, true⟩,
         ⟨"OEBPS/content.opf", EntryData.text (create_content_opf title author bookId nowIso images), true⟩,
         ⟨"OEBPS/nav.xhtml", EntryData.text (create_nav_xhtml title), true⟩,
         ⟨"OEBPS/toc.ncx", EntryData.text (create_toc_ncx title bookId), true⟩,
         ⟨"OEBPS/content.xhtml", EntryData.text (create_content_xhtml title author sourceUrl date htmlContent), true⟩] = 1 := by
      simp [List.countP_cons, isPackageDoc]
    have hz : (images.map (fun img =>
        (⟨"OEBPS/" ++ img.epub_path, EntryData.bin img.image_data, true⟩ : ZipEntry))).countP
          isPackageDoc = 0 := by
      apply hmap0
      intro t img
      have hne := imgEntry_name_ne t "OEBPS/content.opf" (by decide)
      simpa [isPackageDoc] using hne
    rw [hfix, hz]
  · unfold buildEpubEntries
    rw [List.countP_append]
    have hfix : List.countP isNavDoc
        [(⟨"mimetype", EntryData.text "application/epub+zip", false⟩ : ZipEntry),
         ⟨"META-INF/container.xml", EntryData.text container_xml, true⟩,
         ⟨"OEBPS/content.opf", EntryData.text (create_content_opf title author bookId nowIso images), true⟩,
         ⟨"OEBPS/nav.xhtml", EntryData.text (create_nav_xhtml title), true⟩,
         ⟨"OEBPS/toc.ncx", EntryData.text (create_toc_ncx title bookId), true⟩,
         ⟨"OEBPS/content.xhtml", EntryData.text (create_content_xhtml title author sourceUrl date htmlContent), true⟩] = 1 := by
      simp [List.countP_cons, isNavDoc]
    have hz : (images.map (fun img =>
        (⟨"OEBPS/" ++ img.epub_path, EntryData.bin img.image_data, true⟩ : ZipEntry))).countP
          isNavDoc = 0 := by
      apply hmap0
      intro t img
      have hne := imgEntry_name_ne t "OEBPS/nav.xhtml" (by decide)
      simpa [isNavDoc] using hne
    rw [hfix, hz]
  · unfold buildEpubEntries
    rw [List.countP_append]
    have hfix : List.countP isNcxDoc
        [(⟨"mimetype", EntryData.text "application/epub+zip", false⟩ : ZipEntry),
         ⟨"META-INF/container.xml", EntryData.text container_xml, true⟩,
         ⟨"OEBPS/content.opf", EntryData.text (create_content_opf title author bookId nowIso images), true⟩,
         ⟨"OEBPS/nav.xhtml", EntryData.text (create_nav_xhtml title), true⟩,
         ⟨"OEBPS/toc.ncx", EntryData.text (create_toc_ncx title bookId), true⟩,
         ⟨"OEBPS/content.xhtml", EntryData.text (create_content_xhtml title author sourceUrl date htmlContent), true⟩] = 1 := by
      simp [List.countP_cons, isNcxDoc]
    have hz : (images.map (fun img =>
        (⟨"OEBPS/" ++ img.epub_path, EntryData.bin img.image_data, true⟩ : ZipEntry))).countP
          isNcxDoc = 0 := by
      apply hmap0
      intro t img
      have hne := imgEntry_name_ne t "OEBPS/toc.ncx" (by decide)
      simpa [isNcxDoc] using hne
    rw [hfix, hz]
  · unfold buildEpubEntries
    rw [List.countP_append]
    have hfix : List.countP isImageEntry
        [(⟨"mimetype", EntryData.text "application/epub+zip", false⟩ : ZipEntry),
         ⟨"META-INF/container.xml", EntryData.text container_xml, true⟩,
         ⟨"OEBPS/content.opf", EntryData.text (create_content_opf title author bookId nowIso images), true⟩,
         ⟨"OEBPS/nav.xhtml", EntryData.text (create_nav_xhtml title), true⟩,
         ⟨"OEBPS/toc.ncx", EntryData.text (create_toc_ncx title bookId), true⟩,
         ⟨"OEBPS/content.xhtml", EntryData.text (create_content_xhtml title author sourceUrl date htmlContent), true⟩] = 0 := by
      simp [List.countP_cons, isImageEntry]
    have hall : (images.map (fun img =>
        (⟨"OEBPS/" ++ img.epub_path, EntryData.bin img.image_data, true⟩ : ZipEntry))).countP
          isImageEntry = images.length := by
      rw [← List.length_map images
        (fun img => (⟨"OEBPS/" ++ img.epub_path, EntryData.bin img.image_data, true⟩ : ZipEntry))]
      rw [List.countP_eq_length]
      intro e he
      rcases List.mem_map.mp he with ⟨img, hin, rfl⟩
      rcases hshape img hin with ⟨t, ht⟩
      simp only [ht, isImageEntry]
      rw [imgEntry_take13]
      simp
    rw [hfix, hall]
    omega

/-- Claim C9: a failure of the delegate (pandoc) tier — tool missing, an
exception, a non-zero exit at either conversion stage, or missing/empty
output — is never the overall outcome: the fallback tier then decides
the result, overall failure occurs only when the fallback tier itself
fails, and in that case the reported detail is the error of the
fallback tier. -/
theorem convert_to_epub_two_tier :
    ∀ (env : PandocEnv) (fallbackExc : Option String) (path : String),
      ((env.found = false ∨ (convert_with_pandoc env path).1 = false) →
        convert_to_epub_outcome env fallbackExc path =
          (match fallbackExc with
           | some e => (false, e)
           | none => (true, path))) ∧
      ((env.exc.isSome ∨ env.stage1_rc ≠ 0 ∨ env.stage2_rc ≠ 0 ∨
        env.out_exists = false ∨ env.out_size = 0) →
        (convert_with_pandoc env path).1 = false) ∧
      (∀ msg, convert_to_epub_outcome env fallbackExc path = (false, msg) →
        fallbackExc = some msg ∧
        (env.found = false ∨ (convert_with_pandoc env path).1 = false)) ∧
      (fallbackExc = none → (convert_to_epub_outcome env fallbackExc path).1 = true) := by
  intro env fallbackExc path
  refine ⟨?_, ?_, ?_, ?_⟩
  · intro h
    unfold convert_to_epub_outcome
    rcases h with h | h
    · simp [h]
    · cases henv : env.found
      · simp
      · simp only [if_pos rfl]
        rcases hcp : convert_with_pandoc env path with ⟨b, m⟩
        rw [hcp] at h
        simp at h
        subst h
        simp
  · intro h
    unfold convert_with_pandoc
    cases henv : env.found
    · simp
    · simp only [Bool.true_eq_false, if_neg]
      cases hexc : env.exc with
      | some e => simp
      | none =>
        simp only
        rcases h with h | h | h | h | h
        · rw [hexc] at h; simp at h
        · simp [h]
        · by_cases h1 : env.stage1_rc = 0
          · simp [h1, h]
          · simp [h1]
        · by_cases h1 : env.stage1_rc = 0
          · by_cases h2 : env.stage2_rc = 0
            · simp [h1, h2, h]
            · simp [h1, h2]
          · simp [h1]
        · by_cases h1 : env.stage1_rc = 0
          · by_cases h2 : env.stage2_rc = 0
            · simp [h1, h2, h]
            · simp [h1, h2]
          · simp [h1]
  · intro msg hout
    unfold convert_to_epub_outcome at hout
    cases henv : env.found
    · rw [henv] at hout
      simp only [Bool.false_eq_true, if_false] at hout
      cases hfb : fallbackExc with
      | some e =>
        rw [hfb] at hout
        simp at hout
        exact ⟨by rw [hout], Or.inl rfl⟩
      | none =>
        rw [hfb] at hout
        simp at hout
    · rw [henv] at hout
      simp only [if_pos rfl] at hout
      rcases hcp : convert_with_pandoc env path with ⟨b, m⟩
      rw [hcp] at hout
      cases b
      · cases hfb : fallbackExc with
        | some e =>
          rw [hfb] at hout
          simp at hout
          exact ⟨by rw [hout], Or.inr (by simp [hcp])⟩
        | none =>
          rw [hfb] at hout
          simp at hout
      · simp at hout
  · intro hfb
    unfold convert_to_epub_outcome
    rw [hfb]
    cases henv : env.found
    · simp
    · simp only [if_pos rfl]
      rcases hcp : convert_with_pandoc env path with ⟨b, m⟩
      cases b <;> simp

/-- Witness for C9: a delegate tier that fails at the first pandoc stage
falls through to the fallback tier, which decides the outcome: a
fallback exception yields overall failure carrying that detail, a clean
fallback yields success. -/
theorem convert_to_epub_two_tier_witness :
    convert_to_epub_outcome ⟨true, none, 1, "boom", 0, "", true, 10⟩
      (some "zip error") "out.epub" = (false, "zip error") ∧
    convert_to_epub_outcome ⟨true, none, 1, "boom", 0, "", true, 10⟩
      none "out.epub" = (true, "out.epub") :=
  ⟨(convert_to_epub_two_tier ⟨true, none, 1, "boom", 0, "", true, 10⟩
      (some "zip error") "out.epub").1 (Or.inr (by decide)),
   (convert_to_epub_two_tier ⟨true, none, 1, "boom", 0, "", true, 10⟩
      none "out.epub").1 (Or.inr (by decide))⟩

theorem lookup_val_mem : ∀ (l : List (String × String)) (k v : String),
    List.lookup k l = some v → v ∈ l.map Prod.snd := by
  intro l
  induction l with
  | nil => intro k v h; simp [List.lookup] at h
  | cons p rest ih =>
    intro k v h
    rcases p with ⟨a, b⟩
    rw [List.lookup] at h
    cases hb : k == a with
    | true => rw [hb] at h; simp at h; simp [h]
    | false =>
      rw [hb] at h
      simp only at h
      exact List.mem_cons_of_mem _ (ih k v h)

theorem matchExtAt_mem : ∀ (es : List String) (l : List Char) (e : String),
    matchExtAt es l = some e → e ∈ es := by
  intro es
  induction es with
  | nil => intro l e h; simp [matchExtAt] at h
  | cons e0 rest ih =>
    intro l e h
    rw [matchExtAt] at h
    by_cases hm : extMatches e0 l = true
    · rw [if_pos hm] at h
      simp at h
      simp [h]
    · rw [if_neg hm] at h
      exact List.mem_cons_of_mem _ (ih l e h)

theorem urlExtScan_mem : ∀ (l : List Char) (e : String),
    urlExtScan l = some e → ∃ a ∈ extAlternatives, e = "." ++ a := by
  intro l
  induction l with
  | nil => intro e h; simp [urlExtScan] at h
  | cons c rest ih =>
    intro e h
    rw [urlExtScan] at h
    by_cases hc : c = '.'
    · rw [if_pos hc] at h
      cases hm : matchExtAt extAlternatives rest with
      | some e0 =>
        rw [hm] at h
        simp at h
        exact ⟨e0, matchExtAt_mem _ _ _ hm, h.symm⟩
      | none =>
        rw [hm] at h
        exact ih e h
    · rw [if_neg hc] at h
      exact ih e h

theorem get_image_extension_mem (url content_type : String) :
    get_image_extension url content_type ∈ imageSuffixes := by
  have hsub1 : ∀ v ∈ contentTypeMap.map Prod.snd, v ∈ imageSuffixes := by decide
  have hsub2 : ∀ a ∈ extAlternatives, ("." ++ a : String) ∈ imageSuffixes := by decide
  unfold get_image_extension
  cases hb : (if content_type ≠ "" then contentTypeMap.lookup content_type else none) with
  | some ext =>
    simp only
    by_cases hct : content_type = ""
    · rw [if_neg (by simp [hct])] at hb
      exact absurd hb (by simp)
    · rw [if_pos hct] at hb
      exact hsub1 ext (lookup_val_mem _ _ _ hb)
  | none =>
    simp only
    cases hu : urlExtScan url.data with
    | some e =>
      rcases urlExtScan_mem _ _ hu with ⟨a, ha, rfl⟩
      exact hsub2 a ha
    | none => decide

theorem mem_pyLastComponent {c : Char} {s : String}
    (h : c ∈ pyLastComponent s) : c ∈ s.data := by
  unfold pyLastComponent at h
  rw [List.mem_reverse] at h
  have := (List.takeWhile_sublist (fun d => d ≠ '/')).mem h
  rwa [List.mem_reverse] at this

theorem pySuffix_no_dot (s : String) (h : ('.' : Char) ∉ s.data) : pySuffix s = "" := by
  unfold pySuffix
  rw [if_neg]
  intro hmem
  exact h (mem_pyLastComponent hmem)

theorem saveName_no_dot (a b : String) (h1 : ('.' : Char) ∉ a.data)
    (h2 : ('.' : Char) ∉ b.data) : ('.' : Char) ∉ (a ++ "_" ++ b).data := by
  intro hmem
  rw [String.data_append, String.data_append] at hmem
  rcases List.mem_append.mp hmem with hx | hx
  · rcases List.mem_append.mp hx with hy | hy
    · exact h1 hy
    · exact absurd hy (by decide)
  · exact h2 hx

theorem download_image_success (ct : String) (dat : List Nat) (url saveName : String)
    (h : pySuffix saveName = "") :
    download_image (some (ct, dat)) url saveName =
      some (saveName ++ get_image_extension url ct) := by
  have h1 : download_image (some (ct, dat)) url saveName =
      (if imageSuffixes.contains (pyLower (pySuffix saveName)) then some saveName
       else some (withSuffix saveName (get_image_extension url ct))) := rfl
  have h2 : withSuffix saveName (get_image_extension url ct) =
      saveName ++ get_image_extension url ct := by
    unfold withSuffix
    rw [h]
    simp
  rw [h1, h, h2]
  rw [if_neg (by decide)]

theorem dictInsert_lookup_self (k v : String) : ∀ acc,
    List.lookup k (dictInsert k v acc) = some v := by
  intro acc
  induction acc with
  | nil => simp [dictInsert, List.lookup]
  | cons p rest ih =>
    rcases p with ⟨k2, v2⟩
    rw [dictInsert]
    by_cases hk : k2 = k
    · rw [if_pos hk]
      simp [List.lookup]
    · rw [if_neg hk]
      rw [List.lookup]
      have : (k == k2) = false := by
        simp
        exact fun e => hk e.symm
      rw [this]
      exact ih

theorem dictInsert_lookup_ne (k v u : String) (h : u ≠ k) : ∀ acc,
    List.lookup u (dictInsert k v acc) = List.lookup u acc := by
  intro acc
  induction acc with
  | nil =>
    simp only [dictInsert, List.lookup]
    have : (u == k) = false := by simp [h]
    rw [this]
  | cons p rest ih =>
    rcases p with ⟨k2, v2⟩
    rw [dictInsert]
    by_cases hk : k2 = k
    · rw [if_pos hk]
      subst hk
      rw [List.lookup, List.lookup]
      have : (u == k2) = false := by simp [h]
      rw [this]
    · rw [if_neg hk]
      rw [List.lookup, List.lookup]
      cases hb : u == k2 with
      | true => simp
      | false => simpa using ih

theorem dictInsert_memKeys (k v u : String) : ∀ acc,
    u ∈ (dictInsert k v acc).map Prod.fst ↔ u = k ∨ u ∈ acc.map Prod.fst := by
  intro acc
  induction acc with
  | nil => simp [dictInsert]
  | cons p rest ih =>
    rcases p with ⟨k2, v2⟩
    rw [dictInsert]
    by_cases hk : k2 = k
    · rw [if_pos hk]
      subst hk
      simp
    · rw [if_neg hk]
      simp only [List.map_cons, List.mem_cons]
      rw [ih]
      tauto

theorem dictInsert_keys_nodup (k v : String) : ∀ acc,
    (acc.map Prod.fst).Nodup → ((dictInsert k v acc).map Prod.fst).Nodup := by
  intro acc
  induction acc with
  | nil => intro _; simp [dictInsert]
  | cons p rest ih =>
    rcases p with ⟨k2, v2⟩
    intro h
    simp only [List.map_cons, List.nodup_cons] at h
    rw [dictInsert]
    by_cases hk : k2 = k
    · rw [if_pos hk]
      subst hk
      simp only [List.map_cons, List.nodup_cons]
      exact h
    · rw [if_neg hk]
      simp only [List.map_cons, List.nodup_cons]
      constructor
      · rw [dictInsert_memKeys]
        rintro (rfl | hmem)
        · exact hk rfl
        · exact h.1 hmem
      · exact ih h.2

theorem dictInsert_mem_elts (k v : String) (p : String × String) : ∀ acc,
    p ∈ dictInsert k v acc → p = (k, v) ∨ p ∈ acc := by
  intro acc
  induction acc with
  | nil => intro h; simp [dictInsert] at h; simp [h]
  | cons q rest ih =>
    rcases q with ⟨k2, v2⟩
    intro h
    rw [dictInsert] at h
    by_cases hk : k2 = k
    · rw [if_pos hk] at h
      rcases List.mem_cons.mp h with h | h
      · exact Or.inl h
      · exact Or.inr (List.mem_cons_of_mem _ h)
    · rw [if_neg hk] at h
      rcases List.mem_cons.mp h with h | h
      · exact Or.inr (by simp [h])
      · rcases ih h with h | h
        · exact Or.inl h
        · exact Or.inr (List.mem_cons_of_mem _ h)

theorem downloadImagesGo_lookup_notmem (ts : Nat → String)
    (net : Nat → String → Option (String × List Nat)) :
    ∀ (urls : List String) (i : Nat) (acc : List (String × String)) (u : String),
      u ∉ urls →
      List.lookup u (downloadImagesGo ts net i urls acc) = List.lookup u acc := by
  intro urls
  induction urls with
  | nil => intro i acc u _; rfl
  | cons url rest ih =>
    intro i acc u hu
    rw [downloadImagesGo]
    rw [ih (i + 1) _ u (fun hin => hu (List.mem_cons_of_mem _ hin))]
    exact dictInsert_lookup_ne url _ u (fun e => hu (e ▸ List.mem_cons_self _ _)) acc

theorem downloadImagesGo_lookup_mem (ts : Nat → String)
    (net : Nat → String → Option (String × List Nat)) :
    ∀ (urls : List String) (i : Nat) (acc : List (String × String)) (u : String),
      u ∈ urls →
      (List.lookup u (downloadImagesGo ts net i urls acc)).isSome = true := by
  intro urls
  induction urls with
  | nil => intro i acc u h; simp at h
  | cons url rest ih =>
    intro i acc u hu
    rw [downloadImagesGo]
    by_cases hin : u ∈ rest
    · exact ih (i + 1) _ u hin
    · rcases List.mem_cons.mp hu with rfl | h
      · rw [downloadImagesGo_lookup_notmem ts net rest (i + 1) _ u hin]
        rw [dictInsert_lookup_self]
        rfl
      · exact absurd h hin

theorem downloadImagesGo_keys_nodup (ts : Nat → String)
    (net : Nat → String → Option (String × List Nat)) :
    ∀ (urls : List String) (i : Nat) (acc : List (String × String)),
      (acc.map Prod.fst).Nodup →
      ((downloadImagesGo ts net i urls acc).map Prod.fst).Nodup := by
  intro urls
  induction urls with
  | nil => intro i acc h; exact h
  | cons url rest ih =>
    intro i acc h
    rw [downloadImagesGo]
    exact ih (i + 1) _ (dictInsert_keys_nodup _ _ acc h)

theorem downloadImagesGo_values (ts : Nat → String)
    (net : Nat → String → Option (String × List Nat))
    (P : String × String → Prop)
    (hP : ∀ (n : Nat) (u : String), P (u, downloadOutcome ts net n u)) :
    ∀ (urls : List String) (i : Nat) (acc : List (String × String)),
      (∀ p ∈ acc, P p) → ∀ p ∈ downloadImagesGo ts net i urls acc, P p := by
  intro urls
  induction urls with
  | nil => intro i acc hacc p hp; exact hacc p hp
  | cons url rest ih =>
    intro i acc hacc p hp
    rw [downloadImagesGo] at hp
    refine ih (i + 1) _ ?_ p hp
    intro q hq
    rcases dictInsert_mem_elts _ _ q acc hq with rfl | hq2
    · exact hP i url
    · exact hacc q hq2

theorem downloadImagesGo_lookup_nodup (ts : Nat → String)
    (net : Nat → String → Option (String × List Nat)) :
    ∀ (urls : List String) (i : Nat) (acc : List (String × String)),
      urls.Nodup → ∀ (j : Nat) (hj : j < urls.length),
      List.lookup (urls.get ⟨j, hj⟩) (downloadImagesGo ts net i urls acc) =
        some (downloadOutcome ts net (i + j) (urls.get ⟨j, hj⟩)) := by
  intro urls
  induction urls with
  | nil => intro i acc _ j hj; exact absurd hj (by simp)
  | cons url rest ih =>
    intro i acc hnd j hj
    rcases List.nodup_cons.mp hnd with ⟨hnotin, hndr⟩
    cases j with
    | zero =>
      simp only [List.get]
      rw [downloadImagesGo]
      rw [downloadImagesGo_lookup_notmem ts net rest (i + 1) _ url hnotin]
      rw [dictInsert_lookup_self]
      norm_num
    | succ j' =>
      simp only [List.get]
      rw [downloadImagesGo]
      have hj' : j' < rest.length := by
        simp at hj
        omega
      have hrec := ih (i + 1) (dictInsert url (downloadOutcome ts net i url) acc) hndr j' hj'
      have harith : i + 1 + j' = i + (j' + 1) := by omega
      rw [harith] at hrec
      exact hrec

theorem lookup_isSome_iff_memKeys (u : String) : ∀ l : List (String × String),
    (List.lookup u l).isSome = true ↔ u ∈ l.map Prod.fst := by
  intro l
  induction l with
  | nil => simp [List.lookup]
  | cons p rest ih =>
    rcases p with ⟨k, v⟩
    rw [List.lookup]
    cases hb : u == k with
    | true =>
      simp only [Option.isSome_some, List.map_cons, List.mem_cons]
      have : u = k := by simpa using hb
      simp [this]
    | false =>
      simp only [List.map_cons, List.mem_cons]
      rw [ih]
      have : ¬ u = k := by simpa using hb
      tauto

theorem isPrefixOf_append_self (l x : List Char) : l.isPrefixOf (l ++ x) = true := by
  induction l with
  | nil => simp [List.isPrefixOf]
  | cons c r ih => simpa [List.isPrefixOf] using ih

theorem download_images_eq_go (urls : List String) (ts : Nat → String)
    (net : Nat → String → Option (String × List Nat)) :
    download_images urls ts net = downloadImagesGo ts net 1 urls [] := by
  cases urls with
  | nil => rfl
  | cons a l => simp [download_images]

/-- Claim C4: `download_images` returns a mapping with exactly one entry
per input URL (its keys, with no duplicates, are exactly the input
URLs); every recorded value is either the original URL unchanged
(pass-through on failure) or a relative local path under `images/`; the
computed extension always belongs to the fixed image-extension set, so a
successful value has the form `images/<name>.<ext>`; the failure of one URL
never aborts the batch (every URL keeps its entry no matter how the
oracle answers elsewhere); and URLs are processed in input order: the
entry of the URL at 0-based position j is decided by the network answer
for request 1+j — pass-through if that request failed, and
`images/<timestamp>_<sequence>.<ext>` if it succeeded. -/
theorem download_images_spec :
    ∀ (urls : List String) (ts : Nat → String)
      (net : Nat → String → Option (String × List Nat)),
      ((download_images urls ts net).map Prod.fst).Nodup ∧
      (∀ u : String,
        (List.lookup u (download_images urls ts net)).isSome = true ↔ u ∈ urls) ∧
      (∀ p ∈ download_images urls ts net,
        p.2 = p.1 ∨ "images/".data.isPrefixOf p.2.data = true) ∧
      (∀ u ct : String, get_image_extension u ct ∈ imageSuffixes) ∧
      (urls.Nodup → ∀ (j : Nat) (hj : j < urls.length),
        net (1 + j) (urls.get ⟨j, hj⟩) = none →
        List.lookup (urls.get ⟨j, hj⟩) (download_images urls ts net) =
          some (urls.get ⟨j, hj⟩)) ∧
      (urls.Nodup → ∀ (j : Nat) (hj : j < urls.length) (ct : String) (dat : List Nat),
        net (1 + j) (urls.get ⟨j, hj⟩) = some (ct, dat) →
        ('.' : Char) ∉ (ts (1 + j)).data →
        ('.' : Char) ∉ (toString (1 + j) : String).data →
        List.lookup (urls.get ⟨j, hj⟩) (download_images urls ts net) =
          some ("images/" ++ (ts (1 + j) ++ "_" ++ toString (1 + j) ++
            get_image_extension (urls.get ⟨j, hj⟩) ct))) := by
  intro urls ts net
  rw [download_images_eq_go]
  refine ⟨?_, ?_, ?_, ?_, ?_, ?_⟩
  · exact downloadImagesGo_keys_nodup ts net urls 1 [] (by simp)
  · intro u
    constructor
    · intro h
      by_contra hn
      rw [downloadImagesGo_lookup_notmem ts net urls 1 [] u hn] at h
      simp [List.lookup] at h
    · intro h
      exact downloadImagesGo_lookup_mem ts net urls 1 [] u h
  · intro p hp
    refine downloadImagesGo_values ts net
      (fun p => p.2 = p.1 ∨ "images/".data.isPrefixOf p.2.data = true)
      ?_ urls 1 [] (by simp) p hp
    intro n u
    unfold downloadOutcome
    cases hd : download_image (net n u) u (ts n ++ "_" ++ toString n) with
    | none => exact Or.inl rfl
    | some fn =>
      refine Or.inr ?_
      rw [String.data_append]
      exact isPrefixOf_append_self _ _
  · intro u ct
    exact get_image_extension_mem u ct
  · intro hnd j hj hnet
    rw [downloadImagesGo_lookup_nodup ts net urls 1 [] hnd j hj]
    unfold downloadOutcome
    rw [hnet]
    rfl
  · intro hnd j hj ct dat hnet hts htos
    rw [downloadImagesGo_lookup_nodup ts net urls 1 [] hnd j hj]
    unfold downloadOutcome
    rw [hnet]
    rw [download_image_success ct dat _ _
      (pySuffix_no_dot _ (saveName_no_dot _ _ hts htos))]

/-- Witness for C4: a two-URL batch where the first request succeeds
(content type image/png) and the second fails: the first URL maps to an
`images/<timestamp>_<sequence>.png` path, the failed one passes through
unchanged, and both keep exactly one entry. -/
theorem download_images_spec_witness :
    List.lookup "http://e.com/a"
      (download_images ["http://e.com/a", "http://e.com/b"]
        (fun _ => "20240101_120000_000000")
        (fun i _ => if i = 1 then some ("image/png", [7]) else none)) =
      some "images/20240101_120000_000000_1.png" ∧
    List.lookup "http://e.com/b"
      (download_images ["http://e.com/a", "http://e.com/b"]
        (fun _ => "20240101_120000_000000")
        (fun i _ => if i = 1 then some ("image/png", [7]) else none)) =
      some "http://e.com/b" := by
  constructor
  · have h := (download_images_spec ["http://e.com/a", "http://e.com/b"]
      (fun _ => "20240101_120000_000000")
      (fun i _ => if i = 1 then some ("image/png", [7]) else none)).2.2.2.2.2
      (by decide) 0 (by decide) "image/png" [7] (by decide) (by decide) (by decide)
    exact h.trans (by decide)
  · have h := (download_images_spec ["http://e.com/a", "http://e.com/b"]
      (fun _ => "20240101_120000_000000")
      (fun i _ => if i = 1 then some ("image/png", [7]) else none)).2.2.2.2.1
      (by decide) 1 (by decide) (by decide)
    exact h

theorem noWs_tail (c : Char) (l : List Char) (h : noWsBeforeNl (c :: l) = true) :
    noWsBeforeNl l = true := by
  cases l with
  | nil => rfl
  | cons d r =>
    rw [noWsBeforeNl, Bool.and_eq_true] at h
    exact h.2

theorem noWs_cons_iff (c : Char) (l : List Char) :
    noWsBeforeNl (c :: l) = true ↔
      (∀ d, l.head? = some d → wsPairOk c d = true) ∧ noWsBeforeNl l = true := by
  cases l with
  | nil => simp [noWsBeforeNl]
  | cons d r =>
    rw [noWsBeforeNl, Bool.and_eq_true]
    constructor
    · rintro ⟨h1, h2⟩
      refine ⟨?_, h2⟩
      intro d2 hd2
      simp at hd2
      rwa [← hd2]
    · rintro ⟨h1, h2⟩
      exact ⟨h1 d rfl, h2⟩

theorem noWs_drop : ∀ (n : Nat) (l : List Char),
    noWsBeforeNl l = true → noWsBeforeNl (l.drop n) = true := by
  intro n
  induction n with
  | zero => intro l h; exact h
  | succ m ih =>
    intro l h
    cases l with
    | nil => exact h
    | cons c r => exact ih r (noWs_tail c r h)

theorem noWs_take : ∀ (l : List Char) (n : Nat),
    noWsBeforeNl l = true → noWsBeforeNl (l.take n) = true := by
  intro l
  induction l with
  | nil => intro n h; simpa using h
  | cons c r ih =>
    intro n h
    cases n with
    | zero => rfl
    | succ m =>
      rw [List.take_succ_cons, noWs_cons_iff]
      constructor
      · intro d hd
        rw [List.head?_take] at hd
        by_cases hm : m = 0
        · rw [if_pos hm] at hd
          exact absurd hd (by simp)
        · rw [if_neg hm] at hd
          exact ((noWs_cons_iff c r).mp h).1 d hd
      · exact ih m (noWs_tail c r h)

theorem dropWhile_eq_drop_len (p : Char → Bool) : ∀ l : List Char,
    l.dropWhile p = l.drop (l.takeWhile p).length := by
  intro l
  induction l with
  | nil => rfl
  | cons c r ih =>
    by_cases h : p c = true
    · simp [List.dropWhile_cons, List.takeWhile_cons, h, ih]
    · simp [List.dropWhile_cons, List.takeWhile_cons, h]

theorem pyRstrip_eq_take (l : List Char) :
    pyRstrip l = l.take (l.length - (l.reverse.takeWhile pyIsSpace).length) := by
  unfold pyRstrip
  rw [dropWhile_eq_drop_len, List.reverse_drop, List.reverse_reverse, List.length_reverse]

theorem noWs_pyRstrip (l : List Char) (h : noWsBeforeNl l = true) :
    noWsBeforeNl (pyRstrip l) = true := by
  rw [pyRstrip_eq_take]
  exact noWs_take l _ h

theorem noWs_pyStrip (l : List Char) (h : noWsBeforeNl l = true) :
    noWsBeforeNl (pyStrip l) = true := by
  unfold pyStrip pyLstrip
  rw [dropWhile_eq_drop_len]
  exact noWs_drop _ _ (noWs_pyRstrip l h)

theorem head_dropWhile_not (p : Char → Bool) : ∀ (l : List Char) (c : Char),
    (l.dropWhile p).head? = some c → p c = false := by
  intro l
  induction l with
  | nil => intro c h; simp [List.dropWhile] at h
  | cons d r ih =>
    intro c h
    rw [List.dropWhile_cons] at h
    by_cases hd : p d = true
    · rw [if_pos hd] at h
      exact ih c h
    · rw [if_neg hd] at h
      simp at h
      rw [← h]
      simpa using hd

theorem lastNotWs_pyRstrip (l : List Char) : lastNotWs (pyRstrip l) = true := by
  unfold lastNotWs pyRstrip
  rw [List.reverse_reverse]
  cases hd : l.reverse.dropWhile pyIsSpace with
  | nil => simp
  | cons c r =>
    simp only
    have := head_dropWhile_not pyIsSpace l.reverse c (by rw [hd]; rfl)
    simp [this]

theorem lastNotWs_cons (c : Char) (l : List Char) (h : l ≠ []) :
    lastNotWs (c :: l) = lastNotWs l := by
  unfold lastNotWs
  rw [List.reverse_cons]
  cases hr : l.reverse with
  | nil =>
    exact absurd (by simpa using congrArg List.reverse hr) h
  | cons d r => simp

theorem lastNotWs_dropWhile (p : Char → Bool) : ∀ l : List Char,
    lastNotWs l = true → lastNotWs (l.dropWhile p) = true := by
  intro l
  induction l with
  | nil => intro h; exact h
  | cons c r ih =>
    intro h
    rw [List.dropWhile_cons]
    by_cases hc : p c = true
    · rw [if_pos hc]
      cases r with
      | nil => rfl
      | cons d r2 =>
        apply ih
        rwa [lastNotWs_cons c (d :: r2) (by simp)] at h
    · rw [if_neg hc]
      exact h

theorem lastNotWs_pyStrip (l : List Char) : lastNotWs (pyStrip l) = true := by
  unfold pyStrip pyLstrip
  exact lastNotWs_dropWhile pyIsSpace (pyRstrip l) (lastNotWs_pyRstrip l)

theorem pyRstrip_eq_self_of_lastNotWs : ∀ l : List Char,
    lastNotWs l = true → pyRstrip l = l := by
  intro l h
  unfold pyRstrip
  unfold lastNotWs at h
  cases hr : l.reverse with
  | nil =>
    have hl : l = [] := by simpa using congrArg List.reverse hr
    subst hl
    rfl
  | cons c r =>
    rw [hr] at h
    simp only at h
    have hcf : pyIsSpace c = false := by simpa using h
    rw [List.dropWhile_cons, hcf]
    simp only [Bool.false_eq_true, if_false]
    rw [← hr, List.reverse_reverse]

theorem lastNotWs_singleton (c : Char) : lastNotWs [c] = !(pyIsSpace c) := rfl

theorem splitNl_ne_nil : ∀ l : List Char, splitNl l ≠ [] := by
  intro l
  cases l with
  | nil => simp [splitNl]
  | cons c rest =>
    rw [splitNl]
    by_cases hc : c = '\n'
    · rw [if_pos hc]; simp
    · rw [if_neg hc]
      cases splitNl rest <;> simp

theorem splitNl_no_newline : ∀ l : List Char, ∀ line ∈ splitNl l, ('\n' : Char) ∉ line := by
  intro l
  induction l with
  | nil =>
    intro line h
    simp [splitNl] at h
    simp [h]
  | cons c rest ih =>
    intro line h
    rw [splitNl] at h
    by_cases hc : c = '\n'
    · rw [if_pos hc] at h
      rcases List.mem_cons.mp h with rfl | h2
      · simp
      · exact ih line h2
    · rw [if_neg hc] at h
      cases hs : splitNl rest with
      | nil => exact absurd hs (splitNl_ne_nil rest)
      | cons l0 ls =>
        rw [hs] at h
        rcases List.mem_cons.mp h with rfl | h2
        · intro hmem
          rcases List.mem_cons.mp hmem with heq | h3
          · exact hc heq.symm
          · exact ih l0 (by rw [hs]; exact List.mem_cons_self _ _) h3
        · exact ih line (by rw [hs]; exact List.mem_cons_of_mem _ h2)

theorem noWs_of_no_newline : ∀ l : List Char, ('\n' : Char) ∉ l → noWsBeforeNl l = true := by
  intro l
  induction l with
  | nil => intro _; rfl
  | cons c r ih =>
    intro h
    rw [noWs_cons_iff]
    constructor
    · intro d hd
      have hdr : d ∈ r := by
        cases r with
        | nil => simp at hd
        | cons e r2 => simp at hd; simp [hd]
      have : d ≠ '\n' := fun he => h (List.mem_cons_of_mem _ (he ▸ hdr))
      simp [wsPairOk, this]
    · exact ih (fun hm => h (List.mem_cons_of_mem _ hm))

theorem mem_pyRstrip (c : Char) (l : List Char) (h : c ∈ pyRstrip l) : c ∈ l := by
  rw [pyRstrip_eq_take] at h
  exact List.mem_of_mem_take h

theorem noWs_cons_newline_head : ∀ X : List Char,
    noWsBeforeNl X = true → noWsBeforeNl ('\n' :: X) = true := by
  intro X h
  rw [noWs_cons_iff]
  exact ⟨fun d _ => by simp [wsPairOk], h⟩

theorem noWs_append_newline : ∀ (A B : List Char), ('\n' : Char) ∉ A →
    lastNotWs A = true → noWsBeforeNl B = true →
    noWsBeforeNl (A ++ '\n' :: B) = true := by
  intro A
  induction A with
  | nil =>
    intro B _ _ hB
    exact noWs_cons_newline_head B hB
  | cons c A2 ih =>
    intro B hnl hlast hB
    rw [List.cons_append, noWs_cons_iff]
    constructor
    · intro d hd
      cases A2 with
      | nil =>
        simp at hd
        subst hd
        have hws : pyIsSpace c = false := by
          have := lastNotWs_singleton c
          rw [hlast] at this
          simpa using this.symm
        simp [wsPairOk, hws]
      | cons e A3 =>
        simp at hd
        subst hd
        have he : e ≠ '\n' := by
          intro hz
          exact hnl (List.mem_cons_of_mem c
            (by rw [← hz]; exact List.mem_cons_self e A3))
        simp [wsPairOk, he]
    · apply ih
      · intro hm
        exact hnl (List.mem_cons_of_mem _ hm)
      · cases A2 with
        | nil => rfl
        | cons e A3 => rwa [lastNotWs_cons c (e :: A3) (by simp)] at hlast
      · exact hB

theorem noWs_joinNl_rstrip : ∀ L : List (List Char),
    (∀ l ∈ L, ('\n' : Char) ∉ l) →
    noWsBeforeNl (joinNl (L.map pyRstrip)) = true := by
  intro L
  induction L with
  | nil => intro _; rfl
  | cons l L2 ih =>
    intro hL
    cases L2 with
    | nil =>
      show noWsBeforeNl (joinNl [pyRstrip l]) = true
      have : joinNl [pyRstrip l] = pyRstrip l := rfl
      rw [this]
      apply noWs_of_no_newline
      intro hm
      exact hL l (List.mem_cons_self _ _) (mem_pyRstrip _ _ hm)
    | cons l2 L3 =>
      have : joinNl ((l :: l2 :: L3).map pyRstrip) =
          pyRstrip l ++ '\n' :: joinNl ((l2 :: L3).map pyRstrip) := rfl
      rw [this]
      apply noWs_append_newline
      · intro hm
        exact hL l (List.mem_cons_self _ _) (mem_pyRstrip _ _ hm)
      · exact lastNotWs_pyRstrip l
      · exact ih (fun x hx => hL x (List.mem_cons_of_mem _ hx))

theorem bqFixGo_head : ∀ (fuel : Nat) (atStart : Bool) (l : List Char),
    (bqFixGo fuel atStart l).head? = l.head? := by
  intro fuel
  cases fuel with
  | zero => intro _ l; rfl
  | succ f =>
    intro atStart l
    cases l with
    | nil => rfl
    | cons c rest =>
      rw [bqFixGo]
      by_cases h1 : (atStart && (c == '>')) = true
      · rw [if_pos h1]
        by_cases h2 : ('\n' : Char) ∈ rest.takeWhile pyIsSpace
        · rw [if_pos h2]; rfl
        · rw [if_neg h2]; rfl
      · rw [if_neg h1]
        by_cases h2 : (c == '\n') = true
        · rw [if_pos h2]; rfl
        · rw [if_neg h2]; rfl

theorem bqFixGo_noWs : ∀ (fuel : Nat) (atStart : Bool) (l : List Char),
    noWsBeforeNl l = true → noWsBeforeNl (bqFixGo fuel atStart l) = true := by
  intro fuel
  induction fuel with
  | zero => intro _ l h; exact h
  | succ f ih =>
    intro atStart l h
    cases l with
    | nil => exact h
    | cons c rest =>
      rw [bqFixGo]
      by_cases h1 : (atStart && (c == '>')) = true
      · rw [if_pos h1]
        have hc : c = '>' := by
          rw [Bool.and_eq_true] at h1
          simpa using h1.2
        by_cases h2 : ('\n' : Char) ∈ rest.takeWhile pyIsSpace
        · rw [if_pos h2]
          rw [noWs_cons_iff]
          constructor
          · intro d hd
            simp at hd
            subst hd
            subst hc
            decide
          · apply noWs_cons_newline_head
            exact ih true _ (noWs_drop _ rest (noWs_tail c rest h))
        · rw [if_neg h2]
          rw [noWs_cons_iff]
          refine ⟨?_, ih false rest (noWs_tail c rest h)⟩
          intro d hd
          rw [bqFixGo_head] at hd
          exact ((noWs_cons_iff c rest).mp h).1 d hd
      · rw [if_neg h1]
        by_cases h2 : (c == '\n') = true
        · rw [if_pos h2]
          rw [noWs_cons_iff]
          refine ⟨?_, ih true rest (noWs_tail c rest h)⟩
          intro d hd
          rw [bqFixGo_head] at hd
          exact ((noWs_cons_iff c rest).mp h).1 d hd
        · rw [if_neg h2]
          rw [noWs_cons_iff]
          refine ⟨?_, ih false rest (noWs_tail c rest h)⟩
          intro d hd
          rw [bqFixGo_head] at hd
          exact ((noWs_cons_iff c rest).mp h).1 d hd

theorem splitNl_head_empty : ∀ (rest l0 : List Char) (ls : List (List Char)),
    splitNl rest = l0 :: ls → l0 = [] →
    rest = [] ∨ ∃ r2 : List Char, rest = '\n' :: r2 := by
  intro rest l0 ls hsp h0
  cases rest with
  | nil => exact Or.inl rfl
  | cons d r2 =>
    by_cases hd : d = '\n'
    · exact Or.inr ⟨r2, by rw [hd]⟩
    · rw [splitNl, if_neg hd] at hsp
      cases hs2 : splitNl r2 with
      | nil => exact absurd hs2 (splitNl_ne_nil r2)
      | cons a as =>
        rw [hs2] at hsp
        have : l0 = d :: a := by
          have := congrArg List.head? hsp
          simpa using this.symm
        rw [this] at h0
        exact absurd h0 (by simp)

theorem lines_lastNotWs : ∀ l : List Char, noWsBeforeNl l = true → lastNotWs l = true →
    ∀ line ∈ splitNl l, lastNotWs line = true := by
  intro l
  induction l with
  | nil =>
    intro _ _ line hline
    simp [splitNl] at hline
    simp [hline, lastNotWs]
  | cons c rest ih =>
    intro hnw hlast line hline
    by_cases hc : c = '\n'
    · subst hc
      rw [splitNl, if_pos rfl] at hline
      rcases List.mem_cons.mp hline with rfl | h2
      · rfl
      · cases rest with
        | nil =>
          simp [splitNl] at h2
          simp [h2, lastNotWs]
        | cons d r2 =>
          refine ih (noWs_tail _ _ hnw) ?_ line h2
          rwa [lastNotWs_cons '\n' (d :: r2) (by simp)] at hlast
    · cases hs : splitNl rest with
      | nil => exact absurd hs (splitNl_ne_nil rest)
      | cons l0 ls =>
        have hline2 : line ∈ (c :: l0) :: ls := by
          rw [splitNl, if_neg hc, hs] at hline
          exact hline
        rcases List.mem_cons.mp hline2 with rfl | h2
        · rcases l0 with _ | ⟨e, l0t⟩
          · rcases splitNl_head_empty rest [] ls hs rfl with hrest | ⟨r2, hrest⟩
            · rw [hrest] at hlast
              exact hlast
            · rw [lastNotWs_singleton]
              rw [hrest] at hnw
              have := ((noWs_cons_iff c _).mp hnw).1 '\n' rfl
              unfold wsPairOk at this
              simp [hc] at this
              simp [this]
          · rw [lastNotWs_cons c (e :: l0t) (by simp)]
            have hmem : (e :: l0t) ∈ splitNl rest := by
              rw [hs]; exact List.mem_cons_self _ _
            have hrest_ne : rest ≠ [] := by
              intro hre
              rw [hre] at hs
              simp [splitNl] at hs
            have hlast2 : lastNotWs rest = true := by
              cases rest with
              | nil => exact absurd rfl hrest_ne
              | cons d r2 => rwa [lastNotWs_cons c (d :: r2) (by simp)] at hlast
            exact ih (noWs_tail _ _ hnw) hlast2 (e :: l0t) hmem
        · have hmem : line ∈ splitNl rest := by
            rw [hs]; exact List.mem_cons_of_mem _ h2
          cases rest with
          | nil =>
            simp [splitNl] at hs
            rcases hs with ⟨h10, h1s⟩
            rw [h1s] at h2
            simp at h2
          | cons d r2 =>
            refine ih (noWs_tail _ _ hnw) ?_ line hmem
            rwa [lastNotWs_cons c (d :: r2) (by simp)] at hlast

theorem startsTriple_cons_false (c : Char) (X : List Char) (hc : c ≠ '\n') :
    startsTriple (c :: X) = false := by
  unfold startsTriple
  simp [List.take_succ_cons, hc]

theorem noTriple_cons_of_not_nl (c : Char) (X : List Char) (hc : c ≠ '\n')
    (hX : noTriple X = true) : noTriple (c :: X) = true := by
  rw [noTriple, Bool.and_eq_true]
  exact ⟨by rw [startsTriple_cons_false c X hc]; rfl, hX⟩

theorem startsTriple_nl_cons_false (c : Char) (X : List Char) (hc : c ≠ '\n') :
    startsTriple ('\n' :: c :: X) = false := by
  unfold startsTriple
  simp [List.take_succ_cons, hc]

theorem startsTriple_nl_nl_cons_false (c : Char) (X : List Char) (hc : c ≠ '\n') :
    startsTriple ('\n' :: '\n' :: c :: X) = false := by
  unfold startsTriple
  simp [List.take_succ_cons, hc]

theorem noTriple_nl_cons (c : Char) (X : List Char) (hc : c ≠ '\n')
    (hX : noTriple (c :: X) = true) : noTriple ('\n' :: c :: X) = true := by
  rw [noTriple, Bool.and_eq_true]
  exact ⟨by rw [startsTriple_nl_cons_false c X hc]; rfl, hX⟩

theorem noTriple_nl_nl_cons (c : Char) (X : List Char) (hc : c ≠ '\n')
    (hX : noTriple (c :: X) = true) : noTriple ('\n' :: '\n' :: c :: X) = true := by
  rw [noTriple, Bool.and_eq_true]
  exact ⟨by rw [startsTriple_nl_nl_cons_false c X hc]; rfl,
    noTriple_nl_cons c X hc hX⟩

theorem noTriple_replicate (p : Nat) :
    noTriple (List.replicate (min p 2) '\n') = true := by
  have h : min p 2 = 0 ∨ min p 2 = 1 ∨ min p 2 = 2 := by omega
  rcases h with h | h | h <;> rw [h] <;> decide

theorem leadNl_append_cons (c : Char) (hc : c ≠ '\n') : ∀ (k : Nat) (X : List Char),
    leadNl (List.replicate k '\n' ++ c :: X) = k := by
  intro k
  induction k with
  | zero =>
    intro X
    simp [leadNl, hc]
  | succ m ih =>
    intro X
    rw [List.replicate_succ, List.cons_append, leadNl, if_pos rfl, ih X]

theorem collapseGo_spec : ∀ (l : List Char) (p : Nat),
    noTriple (collapseGo l p) = true ∧
    leadNl (collapseGo l p) = min (p + leadNl l) 2 := by
  intro l
  induction l with
  | nil =>
    intro p
    constructor
    · exact noTriple_replicate p
    · show leadNl (List.replicate (min p 2) '\n') = min (p + leadNl []) 2
      have h : min p 2 = 0 ∨ min p 2 = 1 ∨ min p 2 = 2 := by omega
      have h0 : leadNl ([] : List Char) = 0 := rfl
      rw [h0]
      rcases h with h | h | h <;> rw [h] <;> simp [leadNl] <;> omega
  | cons c rest ih =>
    intro p
    by_cases hc : c = '\n'
    · subst hc
      rw [collapseGo, if_pos rfl]
      rcases ih (p + 1) with ⟨h1, h2⟩
      refine ⟨h1, ?_⟩
      rw [h2]
      have : leadNl ('\n' :: rest) = leadNl rest + 1 := by rw [leadNl, if_pos rfl]
      rw [this]
      omega
    · rw [collapseGo, if_neg hc]
      rcases ih 0 with ⟨h1, h2⟩
      constructor
      · have hX : noTriple (c :: collapseGo rest 0) = true :=
          noTriple_cons_of_not_nl c _ hc h1
        have h : min p 2 = 0 ∨ min p 2 = 1 ∨ min p 2 = 2 := by omega
        rcases h with h | h | h <;> rw [h]
        · simpa using hX
        · show noTriple (List.replicate 1 '\n' ++ c :: collapseGo rest 0) = true
          simpa [List.replicate] using noTriple_nl_cons c _ hc hX
        · show noTriple (List.replicate 2 '\n' ++ c :: collapseGo rest 0) = true
          simpa [List.replicate] using noTriple_nl_nl_cons c _ hc hX
      · rw [leadNl_append_cons c hc]
        have : leadNl (c :: rest) = 0 := by rw [leadNl, if_neg hc]
        rw [this]
        omega

theorem collapse_noTriple (l : List Char) : noTriple (collapseNewlines l) = true :=
  (collapseGo_spec l 0).1

/-- Claim C7 (amended): after the final cleanup of the Markdown
transform (`clean_markdown` in fetch_article.py and the tail of
`_html_to_markdown` in article_fetcher_gui.py) no line ends in trailing
whitespace — every line of the returned text equals its own right-strip
— and the newline-collapsing step itself leaves no run of three or more
newlines; but since the collapse runs before the per-line right-trim,
the returned text can still contain such runs when trimming empties a
whitespace-bearing line (the counterexample exhibits this), so the
no-3-newline guarantee holds only at the collapse step, not of the
final text. -/
theorem markdown_final_cleanup_spec :
    (∀ s : List Char, ∀ line ∈ splitNl (clean_markdown s), pyRstrip line = line) ∧
    (∀ s : List Char, ∀ line ∈ splitNl (md_final_cleanup s), pyRstrip line = line) ∧
    (∀ s : List Char, noTriple (collapseNewlines s) = true) := by
  have key : ∀ t : List Char, noWsBeforeNl t = true → lastNotWs t = true →
      ∀ line ∈ splitNl t, pyRstrip line = line := by
    intro t h1 h2 line hline
    exact pyRstrip_eq_self_of_lastNotWs line (lines_lastNotWs t h1 h2 line hline)
  have base : ∀ s : List Char,
      noWsBeforeNl (joinNl ((splitNl (collapseNewlines s)).map pyRstrip)) = true := by
    intro s
    exact noWs_joinNl_rstrip _ (splitNl_no_newline _)
  refine ⟨?_, ?_, fun s => collapse_noTriple s⟩
  · intro s line hline
    refine key _ ?_ ?_ line hline
    · exact noWs_pyStrip _ (bqFixGo_noWs _ true _ (base s))
    · exact lastNotWs_pyStrip _
  · intro s line hline
    refine key _ ?_ ?_ line hline
    · exact noWs_pyStrip _ (base s)
    · exact lastNotWs_pyStrip _

/-- Witness for C7 (amended): the theorem applied to the concrete
cleanup input "a \nb " whose first output line is "a", and to a
concrete newline-collapse input. -/
theorem markdown_final_cleanup_spec_witness :
    pyRstrip "a".data = "a".data ∧
    noTriple (collapseNewlines "x\n\n\n\ny".data) = true :=
  ⟨markdown_final_cleanup_spec.1 "a \nb ".data "a".data (by decide),
   markdown_final_cleanup_spec.2.2 "x\n\n\n\ny".data⟩

/-- Claim C7 counterexample: on the input "a\n \n \nb" — three lines
whose interior lines hold a single space, so no three consecutive
newlines exist yet when the collapse runs — both cleanup functions
return "a\n\n\nb", which contains a run of three newline characters:
the claim that the returned text never contains such a run is false. -/
theorem markdown_final_cleanup_cex :
    clean_markdown ("a\n \n \nb".data) = ("a\n\n\nb".data) ∧
    md_final_cleanup ("a\n \n \nb".data) = ("a\n\n\nb".data) ∧
    noTriple ("a\n\n\nb".data) = false :=
  ⟨by decide, by decide, by decide⟩

/-- Being a prefix is taking the first pat-length characters. -/
theorem isPrefixOf_iff_take_eq (p l : List Char) :
    p.isPrefixOf l = true ↔ l.take p.length = p := by
  induction p generalizing l with
  | nil => simp [List.isPrefixOf]
  | cons a as ih =>
    cases l with
    | nil => simp [List.isPrefixOf]
    | cons b bs =>
      simp only [List.isPrefixOf, Bool.and_eq_true, beq_iff_eq, List.length_cons,
        List.take_succ_cons, List.cons.injEq]
      rw [ih]
      constructor
      · rintro ⟨h1, h2⟩; exact ⟨h1.symm, h2⟩
      · rintro ⟨h1, h2⟩; exact ⟨h1.symm, h2⟩

/-- A prefix of an append that fits inside the left part is a prefix of
the left part. -/
theorem isPrefixOf_append_left (l a b : List Char)
    (h : l.isPrefixOf (a ++ b) = true) (hlen : l.length ≤ a.length) :
    l.isPrefixOf a = true := by
  rw [isPrefixOf_iff_take_eq] at h ⊢
  rw [List.take_append_of_le_length hlen] at h
  exact h

/-- Splitting a prefix of an append at the boundary of the left part. -/
theorem isPrefixOf_append_split (pat s t : List Char)
    (h : pat.isPrefixOf (s ++ t) = true) (hlen : s.length ≤ pat.length) :
    s = pat.take s.length ∧ (pat.drop s.length).isPrefixOf t = true := by
  rw [isPrefixOf_iff_take_eq] at h
  constructor
  · calc s = (s ++ t).take s.length := (List.take_left _ _).symm
    _ = ((s ++ t).take pat.length).take s.length := by
        rw [List.take_take, min_eq_left hlen]
    _ = pat.take s.length := by rw [h]
  · rw [isPrefixOf_iff_take_eq, List.length_drop]
    calc t.take (pat.length - s.length)
        = ((s ++ t).drop s.length).take (pat.length - s.length) := by
          rw [List.drop_left]
    _ = ((s ++ t).take pat.length).drop s.length := by
          rw [List.drop_take]
    _ = pat.drop s.length := by rw [h]

/-- When the pattern does not occur in x and cannot overlap itself, the
first occurrence of the pattern in x ++ pat ++ y is the planted one. -/
theorem splitOnFirst_exact (pat x y : List Char) (hne : pat ≠ [])
    (hnov : ∀ k, 0 < k → k < pat.length → ((pat.drop k).isPrefixOf pat) = false)
    (hx : hasSubstr pat x = false) :
    splitOnFirst pat (x ++ (pat ++ y)) = some (x, y) := by
  induction x with
  | nil =>
    rcases pat with _ | ⟨p0, pr⟩
    · exact absurd rfl hne
    · show splitOnFirst (p0 :: pr) ((p0 :: pr) ++ y) = some ([], y)
      rw [List.cons_append, splitOnFirst]
      rw [if_pos (by exact isPrefixOf_append_self (p0 :: pr) y)]
      congr 1
      rw [Prod.mk.injEq]
      refine ⟨rfl, ?_⟩
      exact List.drop_left (p0 :: pr) y
  | cons c xs ih =>
    rw [hasSubstr] at hx
    simp only [Bool.or_eq_false_iff] at hx
    obtain ⟨hx1, hx2⟩ := hx
    have hcond : pat.isPrefixOf ((c :: xs) ++ (pat ++ y)) = false := by
      by_contra hcon
      rw [Bool.not_eq_false] at hcon
      by_cases hl : pat.length ≤ (c :: xs).length
      · have := isPrefixOf_append_left pat (c :: xs) (pat ++ y) hcon hl
        rw [this] at hx1
        exact absurd hx1 (by decide)
      · push_neg at hl
        obtain ⟨hs, hdp⟩ := isPrefixOf_append_split pat (c :: xs) (pat ++ y) hcon (le_of_lt hl)
        have hdp2 : (pat.drop (c :: xs).length).isPrefixOf pat = true := by
          refine isPrefixOf_append_left _ pat y hdp ?_
          rw [List.length_drop]
          omega
        have := hnov (c :: xs).length (by simp) hl
        rw [hdp2] at this
        exact absurd this (by decide)
    rw [List.cons_append, splitOnFirst]
    rw [List.cons_append] at hcond
    rw [if_neg (by rw [hcond]; exact Bool.false_ne_true)]
    rw [ih hx2]

/-- takeWhile over an append stops exactly at a planted terminator. -/
theorem takeWhile_append_cons (p : Char → Bool) (xs : List Char) (c : Char) (ys : List Char)
    (h : ∀ x ∈ xs, p x = true) (hc : p c = false) :
    (xs ++ c :: ys).takeWhile p = xs := by
  induction xs with
  | nil => simp [List.takeWhile, hc]
  | cons a r ih =>
    rw [List.cons_append, List.takeWhile_cons]
    rw [h a (List.mem_cons_self _ _)]
    rw [ih (fun x hx => h x (List.mem_cons_of_mem _ hx))]
    simp

/-- The item scan over a built ol body returns exactly the item texts,
in order, whatever each item carries in its attribute text. -/
theorem findLisGo_mkOlBody (items : List (List Char × List Char)) (fuel : Nat)
    (hfuel : (mkOlBody items).length ≤ fuel)
    (h : ∀ pr ∈ items, ('>' : Char) ∉ pr.1 ∧ hasSubstr "</li>".data pr.2 = false) :
    findLisGo fuel (mkOlBody items) = items.map Prod.snd := by
  induction items generalizing fuel with
  | nil =>
    cases fuel with
    | zero => rfl
    | succ f => rfl
  | cons pr rest ih =>
    obtain ⟨attrs, text⟩ := pr
    obtain ⟨hgt, hsub⟩ := h (attrs, text) (List.mem_cons_self _ _)
    have hbody : mkOlBody ((attrs, text) :: rest) =
        '<' :: ('l' :: ('i' :: (attrs ++ ('>' :: (text ++ ("</li>".data ++ mkOlBody rest)))))) := rfl
    cases fuel with
    | zero =>
      rw [hbody] at hfuel
      simp at hfuel
    | succ f =>
      rw [hbody, findLisGo]
      rw [if_pos (by simp [List.isPrefixOf])]
      have hdrop3 : (('<' :: ('l' :: ('i' :: (attrs ++ ('>' :: (text ++ ("</li>".data ++ mkOlBody rest))))))).drop 3) = attrs ++ ('>' :: (text ++ ("</li>".data ++ mkOlBody rest))) := rfl
      rw [hdrop3]
      have htw : (attrs ++ ('>' :: (text ++ ("</li>".data ++ mkOlBody rest)))).takeWhile (fun d => d ≠ '>') = attrs := by
        refine takeWhile_append_cons _ _ _ _ ?_ (by decide)
        intro x hx
        simp only [ne_eq, decide_eq_true_eq]
        intro hxe
        exact hgt (hxe ▸ hx)
      rw [htw]
      rw [List.drop_left]
      have hsp : splitOnFirst "</li>".data (text ++ ("</li>".data ++ mkOlBody rest)) = some (text, mkOlBody rest) := by
        refine splitOnFirst_exact _ _ _ (by decide) ?_ hsub
        intro k h1 h2
        have h5 : k < 5 := by simpa using h2
        interval_cases k <;> decide
      split
      case _ afterGt heq =>
        injection heq with h1 h2
        subst h2
        rw [hsp]
        have hlen : (mkOlBody rest).length ≤ f := by
          rw [hbody] at hfuel
          simp only [List.length_cons, List.length_append] at hfuel
          omega
        show text :: findLisGo f (mkOlBody rest) = List.map Prod.snd ((attrs, text) :: rest)
        rw [ih f hlen (fun q hq => h q (List.mem_cons_of_mem _ hq))]
        simp
      case _ hne2 =>
        exact absurd rfl (hne2 (text ++ ("</li>".data ++ mkOlBody rest)))

/-- Claim C6 (code bug): the renumbering helper itself does render the
items of an ol body numbered consecutively 1., 2., 3., ... from 1 in
original item order regardless of source numbering (first two
conjuncts: universally over built bodies, and concretely on items
marked value 5, 9, 2), but the Markdown transform never hands it such
a body: the global li sub runs before the ol sub in both sources, so
by the time the ol sub fires, every li element inside the ol has
already been rewritten to a bulleted line (third conjunct), the item
scan inside the helper finds nothing, and the whole ol element —
items included — is replaced by a bare newline (fourth conjunct),
which carries no 1. numbering at all (fifth conjunct).  The transform
therefore never renders an ordered list renumbered 1., 2., 3. -/
theorem ol_renumbering_code_bug :
    (∀ (items : List (List Char × List Char)),
      (∀ pr ∈ items, ('>' : Char) ∉ pr.1 ∧ hasSubstr "</li>".data pr.2 = false) →
      replace_ol (mkOlBody items) = '\n' :: renderItems 1 (items.map Prod.snd)) ∧
    replace_ol "<li value=\"5\">alpha</li><li value=\"9\">beta</li><li value=\"2\">gamma</li>".data
      = "\n1. alpha\n2. beta\n3. gamma\n".data ∧
    liSub "<ol><li value=\"5\">alpha</li><li value=\"9\">beta</li><li value=\"2\">gamma</li></ol>".data
      = "<ol>- alpha\n- beta\n- gamma\n</ol>".data ∧
    list_stage "<ol><li value=\"5\">alpha</li><li value=\"9\">beta</li><li value=\"2\">gamma</li></ol>".data
      = "\n".data ∧
    hasSubstr "1.".data "\n".data = false := by
  refine ⟨?_, by decide, by decide, by decide, by decide⟩
  intro items h
  rw [replace_ol]
  rw [show findLis (mkOlBody items) = findLisGo (mkOlBody items).length (mkOlBody items) from rfl]
  rw [findLisGo_mkOlBody items _ (le_refl _) h]

/-- Witness for C6: the helper conjunct of the theorem applied to a
one-item list carrying a source value attribute. -/
theorem ol_renumbering_code_bug_witness :
    (∀ pr ∈ [((" value=\"7\"".data : List Char), ("alpha".data : List Char))],
        ('>' : Char) ∉ pr.1 ∧ hasSubstr "</li>".data pr.2 = false) ∧
    replace_ol (mkOlBody [(" value=\"7\"".data, "alpha".data)]) =
      '\n' :: renderItems 1 ["alpha".data] :=
  ⟨by decide, ol_renumbering_code_bug.1 [(" value=\"7\"".data, "alpha".data)] (by decide)⟩

/-- When the alt attribute pattern occurs nowhere in the tag text, the
alt search finds nothing. -/
theorem scanFirst_alt_none (l : List Char) (h : hasSubstr "alt=\"".data l = false) :
    scanFirst altAttrHere l = none := by
  induction l with
  | nil => rfl
  | cons c rest ih =>
    rw [hasSubstr] at h
    simp only [Bool.or_eq_false_iff] at h
    rw [scanFirst]
    rw [show altAttrHere (c :: rest) = none from by
      rw [altAttrHere, if_neg (by rw [h.1]; exact Bool.false_ne_true)]]
    exact ih h.2

/-- A leftmost scan skips a region where the matcher fails at every
position. -/
theorem scanFirst_append (f : List Char → Option (List Char)) (x y : List Char)
    (h : ∀ i, i < x.length → f (x.drop i ++ y) = none) :
    scanFirst f (x ++ y) = scanFirst f y := by
  induction x with
  | nil => rfl
  | cons c xs ih =>
    rw [List.cons_append, scanFirst]
    have h0 := h 0 (by simp)
    rw [show (((c :: xs) : List Char).drop 0) = c :: xs from rfl] at h0
    rw [List.cons_append] at h0
    rw [h0]
    exact ih (fun i hi => h (i + 1) (by simpa using Nat.succ_lt_succ hi))

/-- Neither src alternative can match at a position whose head letter
is not d or s. -/
theorem srcAttrHere_head (c : Char) (l : List Char) (h1 : c ≠ 'd') (h2 : c ≠ 's') :
    srcAttrHere (c :: l) = none := by
  rw [srcAttrHere]
  rw [if_neg (by simp [List.isPrefixOf]; intro he; exact absurd he.symm h1)]
  rw [if_neg (by simp [List.isPrefixOf]; intro he; exact absurd he.symm h2)]

/-- The alt attribute cannot match at a position whose head letter is
not a. -/
theorem altAttrHere_head (c : Char) (l : List Char) (h1 : c ≠ 'a') :
    altAttrHere (c :: l) = none := by
  rw [altAttrHere]
  rw [if_neg (by simp [List.isPrefixOf]; intro he; exact absurd he.symm h1)]

/-- The quoted capture over a planted quote-free value: the value up to
the closing quote. -/
theorem captureQuoted_exact (u z : List Char) (hne : u ≠ []) (hq : ('"' : Char) ∉ u) :
    captureQuoted (u ++ ('"' :: z)) = some u := by
  have htw : (u ++ ('"' :: z)).takeWhile (fun d => d ≠ '"') = u := by
    refine takeWhile_append_cons _ _ _ _ ?_ (by decide)
    intro x hx
    simp only [ne_eq, decide_eq_true_eq]
    intro he
    exact hq (he ▸ hx)
  rw [captureQuoted, htw]
  rw [if_neg (by simpa using hne)]
  rw [List.drop_left]
  split
  case _ t heq => rfl
  case _ hne2 => exact absurd rfl (hne2 z)

/-- If an attribute pattern whose only quote is its last character
matches across a quote-free region followed by a quote, the region plus
that quote is the whole pattern. -/
theorem attr_pat_prefix_forces (pat s z : List Char) (hq : ('"' : Char) ∉ s)
    (hqp : ('"' : Char) ∈ pat)
    (hidx : ∀ j, pat[j]? = some '"' → j = pat.length - 1)
    (hpre : pat.isPrefixOf (s ++ ('"' :: z)) = true) :
    s ++ ['"'] = pat := by
  rw [isPrefixOf_iff_take_eq] at hpre
  by_cases hl : pat.length ≤ s.length
  · exfalso
    rw [List.take_append_of_le_length hl] at hpre
    have hmem : ('"' : Char) ∈ s.take pat.length := by rw [hpre]; exact hqp
    exact hq (List.take_subset _ _ hmem)
  · push_neg at hl
    have hget : pat[s.length]? = some '"' := by
      rw [← hpre]
      rw [List.getElem?_take_of_lt hl]
      rw [List.getElem?_append_right (le_refl s.length)]
      simp
    have hj := hidx _ hget
    have hpos : 0 < pat.length := List.length_pos_of_mem hqp
    have hs : s = pat.take s.length := by
      calc s = (s ++ ('"' :: z)).take s.length := (List.take_left _ _).symm
      _ = ((s ++ ('"' :: z)).take pat.length).take s.length := by
          rw [List.take_take, min_eq_left (le_of_lt hl)]
      _ = pat.take s.length := by rw [hpre]
    have hsucc : pat.take (s.length + 1) = pat.take s.length ++ ['"'] := by
      rw [List.take_succ, hget]
      rfl
    have hfull : s.length + 1 = pat.length := by omega
    rw [hs, ← hsucc, hfull, List.take_length]

/-- Inside a quote-free attribute value that does not end in an src
attribute opening, neither src alternative can match. -/
theorem srcAttrHere_quotefree_mid (s z : List Char) (hq : ('"' : Char) ∉ s)
    (hsub : hasSubstr "src=\"".data (s ++ ['"']) = false) :
    srcAttrHere (s ++ ('"' :: z)) = none := by
  have h1 : "data-src=\"".data.isPrefixOf (s ++ ('"' :: z)) = false := by
    by_contra hcon
    rw [Bool.not_eq_false] at hcon
    have hforce := attr_pat_prefix_forces "data-src=\"".data s z hq (by decide)
      (by
        intro j h
        have hlt : j < 10 := by
          have := (List.getElem?_eq_some.mp h).1
          simpa using this
        interval_cases j <;> revert h <;> decide) hcon
    rw [hforce] at hsub
    exact absurd hsub (by decide)
  have h2 : "src=\"".data.isPrefixOf (s ++ ('"' :: z)) = false := by
    by_contra hcon
    rw [Bool.not_eq_false] at hcon
    have hforce := attr_pat_prefix_forces "src=\"".data s z hq (by decide)
      (by
        intro j h
        have hlt : j < 5 := by
          have := (List.getElem?_eq_some.mp h).1
          simpa using this
        interval_cases j <;> revert h <;> decide) hcon
    rw [hforce] at hsub
    exact absurd hsub (by decide)
  rw [srcAttrHere]
  rw [if_neg (by rw [h1]; exact Bool.false_ne_true)]
  rw [if_neg (by rw [h2]; exact Bool.false_ne_true)]

/-- A scan returns the match found at its first position. -/
theorem scanFirst_cons_some (f : List Char → Option (List Char)) (c : Char)
    (rest : List Char) (v : List Char) (h : f (c :: rest) = some v) :
    scanFirst f (c :: rest) = some v := by
  rw [scanFirst, h]

/-- The data-src alternative matches at its own attribute text. -/
theorem srcAttrHere_data_match (url z : List Char) (hne : url ≠ []) (hq : ('"' : Char) ∉ url) :
    srcAttrHere ("data-src=\"".data ++ (url ++ ('"' :: z))) = some url := by
  rw [srcAttrHere]
  rw [if_pos (isPrefixOf_append_self _ _)]
  have hdrop : ("data-src=\"".data ++ (url ++ ('"' :: z))).drop 10 = url ++ ('"' :: z) := by
    rw [show (10 : Nat) = ("data-src=\"".data : List Char).length from rfl]
    exact List.drop_left _ _
  rw [hdrop]
  exact captureQuoted_exact url z hne hq

/-- The src alternative matches at its own attribute text. -/
theorem srcAttrHere_src_match (a z : List Char) (hne : a ≠ []) (hq : ('"' : Char) ∉ a) :
    srcAttrHere ("src=\"".data ++ (a ++ ('"' :: z))) = some a := by
  rw [srcAttrHere]
  rw [if_neg (by
    rw [show ("src=\"".data : List Char) = 's' :: "rc=\"".data from by decide]
    rw [List.cons_append]
    simp [List.isPrefixOf])]
  rw [if_pos (isPrefixOf_append_self _ _)]
  have hdrop : ("src=\"".data ++ (a ++ ('"' :: z))).drop 5 = a ++ ('"' :: z) := by
    rw [show (5 : Nat) = ("src=\"".data : List Char).length from rfl]
    exact List.drop_left _ _
  rw [hdrop]
  exact captureQuoted_exact a z hne hq

/-- The alt pattern matches at its own attribute text. -/
theorem altAttrHere_match (alt z : List Char) (hq : ('"' : Char) ∉ alt) :
    altAttrHere ("alt=\"".data ++ (alt ++ ('"' :: z))) = some alt := by
  rw [altAttrHere]
  rw [if_pos (isPrefixOf_append_self _ _)]
  have hdrop : ("alt=\"".data ++ (alt ++ ('"' :: z))).drop 5 = alt ++ ('"' :: z) := by
    rw [show (5 : Nat) = ("alt=\"".data : List Char).length from rfl]
    exact List.drop_left _ _
  rw [hdrop]
  have htw : (alt ++ ('"' :: z)).takeWhile (fun d => d ≠ '"') = alt := by
    refine takeWhile_append_cons _ _ _ _ ?_ (by decide)
    intro x hx
    simp only [ne_eq, decide_eq_true_eq]
    intro he
    exact hq (he ▸ hx)
  rw [htw, List.drop_left]
  split
  case _ t heq => rfl
  case _ hne2 => exact absurd rfl (hne2 z)

/-- A pattern absent from a text is absent from every suffix. -/
theorem hasSubstr_false_drop (pat l : List Char) :
    ∀ i, hasSubstr pat l = false → hasSubstr pat (l.drop i) = false := by
  induction l with
  | nil => intro i h; simpa using h
  | cons c rest ih =>
    intro i h
    cases i with
    | zero => exact h
    | succ j =>
      rw [hasSubstr] at h
      simp only [Bool.or_eq_false_iff] at h
      exact ih j h.2

/-- The src search over a tag carrying only a data-src attribute finds
the data-src value. -/
theorem scan_src_T1 (url : List Char) (hne : url ≠ []) (hq : ('"' : Char) ∉ url) :
    scanFirst srcAttrHere ("<img data-src=\"".data ++ (url ++ "\">".data)) = some url := by
  rw [show ("<img data-src=\"".data : List Char) = "<img ".data ++ "data-src=\"".data from by decide]
  rw [List.append_assoc]
  rw [scanFirst_append srcAttrHere "<img ".data _ (by
    intro i hi
    have h5 : i < 5 := by simpa using hi
    interval_cases i
    · rw [show (("<img ".data : List Char)).drop 0 = '<' :: "img ".data from by decide,
        List.cons_append]
      exact srcAttrHere_head _ _ (by decide) (by decide)
    · rw [show (("<img ".data : List Char)).drop 1 = 'i' :: "mg ".data from by decide,
        List.cons_append]
      exact srcAttrHere_head _ _ (by decide) (by decide)
    · rw [show (("<img ".data : List Char)).drop 2 = 'm' :: "g ".data from by decide,
        List.cons_append]
      exact srcAttrHere_head _ _ (by decide) (by decide)
    · rw [show (("<img ".data : List Char)).drop 3 = 'g' :: " ".data from by decide,
        List.cons_append]
      exact srcAttrHere_head _ _ (by decide) (by decide)
    · rw [show (("<img ".data : List Char)).drop 4 = ' ' :: ([] : List Char) from by decide,
        List.cons_append]
      exact srcAttrHere_head _ _ (by decide) (by decide))]
  rw [show ("\">".data : List Char) = '"' :: ('>' :: []) from by decide]
  have hm := srcAttrHere_data_match url ('>' :: []) hne hq
  rw [show ("data-src=\"".data : List Char) = 'd' :: "ata-src=\"".data from by decide,
    List.cons_append] at hm ⊢
  exact scanFirst_cons_some _ _ _ _ hm

/-- A tag with only a data-src attribute renders with that URL and the
placeholder alt text. -/
theorem process_T1 (url : List Char) (hne : url ≠ []) (hq : ('"' : Char) ∉ url)
    (halt : hasSubstr "alt=\"".data ("<img data-src=\"".data ++ (url ++ "\">".data)) = false) :
    process_img_tag ("<img data-src=\"".data ++ (url ++ "\">".data)) =
      "\n\n![".data ++ ("图片".data ++ ("](".data ++
        ((if "//".data.isPrefixOf url then "https:".data ++ url else url) ++ ")\n\n".data))) := by
  rw [process_img_tag]
  rw [scan_src_T1 url hne hq]
  rw [scanFirst_alt_none _ halt]
  rfl

/-- The src search over a tag carrying src first and data-src second
finds the src value: the leftmost attribute occurrence wins. -/
theorem scan_src_T3 (a b : List Char) (hne : a ≠ []) (hq : ('"' : Char) ∉ a) :
    scanFirst srcAttrHere
      ("<img src=\"".data ++ (a ++ ("\" data-src=\"".data ++ (b ++ "\">".data)))) = some a := by
  rw [show ("<img src=\"".data : List Char) = "<img ".data ++ "src=\"".data from by decide]
  rw [List.append_assoc]
  rw [scanFirst_append srcAttrHere "<img ".data _ (by
    intro i hi
    have h5 : i < 5 := by simpa using hi
    interval_cases i
    · rw [show (("<img ".data : List Char)).drop 0 = '<' :: "img ".data from by decide,
        List.cons_append]
      exact srcAttrHere_head _ _ (by decide) (by decide)
    · rw [show (("<img ".data : List Char)).drop 1 = 'i' :: "mg ".data from by decide,
        List.cons_append]
      exact srcAttrHere_head _ _ (by decide) (by decide)
    · rw [show (("<img ".data : List Char)).drop 2 = 'm' :: "g ".data from by decide,
        List.cons_append]
      exact srcAttrHere_head _ _ (by decide) (by decide)
    · rw [show (("<img ".data : List Char)).drop 3 = 'g' :: " ".data from by decide,
        List.cons_append]
      exact srcAttrHere_head _ _ (by decide) (by decide)
    · rw [show (("<img ".data : List Char)).drop 4 = ' ' :: ([] : List Char) from by decide,
        List.cons_append]
      exact srcAttrHere_head _ _ (by decide) (by decide))]
  rw [show ("\" data-src=\"".data : List Char) = '"' :: " data-src=\"".data from by decide]
  rw [List.cons_append]
  have hm := srcAttrHere_src_match a (" data-src=\"".data ++ (b ++ "\">".data)) hne hq
  rw [show ("src=\"".data : List Char) = 's' :: (['r', 'c', '=', '\"'] : List Char) from by decide,
    List.cons_append] at hm
  exact scanFirst_cons_some _ _ _ _ hm

/-- A tag with both attributes, src written first, renders with the src
value even though data-src is present. -/
theorem process_T3 (a b : List Char) (hne : a ≠ []) (hqa : ('"' : Char) ∉ a)
    (halt : hasSubstr "alt=\"".data
      ("<img src=\"".data ++ (a ++ ("\" data-src=\"".data ++ (b ++ "\">".data)))) = false) :
    process_img_tag ("<img src=\"".data ++ (a ++ ("\" data-src=\"".data ++ (b ++ "\">".data)))) =
      "\n\n![".data ++ ("图片".data ++ ("](".data ++
        ((if "//".data.isPrefixOf a then "https:".data ++ a else a) ++ ")\n\n".data))) := by
  rw [process_img_tag]
  rw [scan_src_T3 a b hne hqa]
  rw [scanFirst_alt_none _ halt]
  rfl

/-- The alt search over a tag opening with an alt attribute finds the
alt value. -/
theorem scan_alt_T4 (alt z : List Char) (hq : ('"' : Char) ∉ alt) :
    scanFirst altAttrHere ("<img alt=\"".data ++ (alt ++ ('"' :: z))) = some alt := by
  rw [show ("<img alt=\"".data : List Char) = "<img ".data ++ "alt=\"".data from by decide]
  rw [List.append_assoc]
  rw [scanFirst_append altAttrHere "<img ".data _ (by
    intro i hi
    have h5 : i < 5 := by simpa using hi
    interval_cases i
    · rw [show (("<img ".data : List Char)).drop 0 = '<' :: "img ".data from by decide,
        List.cons_append]
      exact altAttrHere_head _ _ (by decide)
    · rw [show (("<img ".data : List Char)).drop 1 = 'i' :: "mg ".data from by decide,
        List.cons_append]
      exact altAttrHere_head _ _ (by decide)
    · rw [show (("<img ".data : List Char)).drop 2 = 'm' :: "g ".data from by decide,
        List.cons_append]
      exact altAttrHere_head _ _ (by decide)
    · rw [show (("<img ".data : List Char)).drop 3 = 'g' :: " ".data from by decide,
        List.cons_append]
      exact altAttrHere_head _ _ (by decide)
    · rw [show (("<img ".data : List Char)).drop 4 = ' ' :: ([] : List Char) from by decide,
        List.cons_append]
      exact altAttrHere_head _ _ (by decide))]
  have hm := altAttrHere_match alt z hq
  rw [show ("alt=\"".data : List Char) = 'a' :: (['l', 't', '=', '\"'] : List Char) from by decide,
    List.cons_append] at hm ⊢
  exact scanFirst_cons_some _ _ _ _ hm

/-- The src search over a tag with an alt attribute before data-src
skips the alt region and finds the data-src value. -/
theorem scan_src_T4 (alt url : List Char) (hneu : url ≠ []) (hqu : ('"' : Char) ∉ url)
    (hqa : ('"' : Char) ∉ alt)
    (hsubalt : hasSubstr "src=\"".data (alt ++ ['"']) = false) :
    scanFirst srcAttrHere
      ("<img alt=\"".data ++ (alt ++ ("\" data-src=\"".data ++ (url ++ "\">".data)))) =
      some url := by
  rw [show ("\" data-src=\"".data : List Char) = (['\"', ' '] : List Char) ++ "data-src=\"".data
    from by decide]
  rw [List.append_assoc]
  rw [scanFirst_append srcAttrHere "<img alt=\"".data _ (by
    intro i hi
    have h10 : i < 10 := by simpa using hi
    interval_cases i
    · rw [show (("<img alt=\"".data : List Char)).drop 0 = '<' :: "img alt=\"".data from by decide,
        List.cons_append]
      exact srcAttrHere_head _ _ (by decide) (by decide)
    · rw [show (("<img alt=\"".data : List Char)).drop 1 = 'i' :: "mg alt=\"".data from by decide,
        List.cons_append]
      exact srcAttrHere_head _ _ (by decide) (by decide)
    · rw [show (("<img alt=\"".data : List Char)).drop 2 = 'm' :: "g alt=\"".data from by decide,
        List.cons_append]
      exact srcAttrHere_head _ _ (by decide) (by decide)
    · rw [show (("<img alt=\"".data : List Char)).drop 3 = 'g' :: " alt=\"".data from by decide,
        List.cons_append]
      exact srcAttrHere_head _ _ (by decide) (by decide)
    · rw [show (("<img alt=\"".data : List Char)).drop 4 = ' ' :: "alt=\"".data from by decide,
        List.cons_append]
      exact srcAttrHere_head _ _ (by decide) (by decide)
    · rw [show (("<img alt=\"".data : List Char)).drop 5 = 'a' :: "lt=\"".data from by decide,
        List.cons_append]
      exact srcAttrHere_head _ _ (by decide) (by decide)
    · rw [show (("<img alt=\"".data : List Char)).drop 6 = 'l' :: "t=\"".data from by decide,
        List.cons_append]
      exact srcAttrHere_head _ _ (by decide) (by decide)
    · rw [show (("<img alt=\"".data : List Char)).drop 7 = 't' :: "=\"".data from by decide,
        List.cons_append]
      exact srcAttrHere_head _ _ (by decide) (by decide)
    · rw [show (("<img alt=\"".data : List Char)).drop 8 = '=' :: "\"".data from by decide,
        List.cons_append]
      exact srcAttrHere_head _ _ (by decide) (by decide)
    · rw [show (("<img alt=\"".data : List Char)).drop 9 = '\"' :: ([] : List Char) from by decide,
        List.cons_append]
      exact srcAttrHere_head _ _ (by decide) (by decide))]
  rw [scanFirst_append srcAttrHere alt _ (by
    intro i hi
    rw [show ((['\"', ' '] : List Char) ++ ("data-src=\"".data ++ (url ++ "\">".data))) =
      '\"' :: (' ' :: ("data-src=\"".data ++ (url ++ "\">".data))) from rfl]
    refine srcAttrHere_quotefree_mid (alt.drop i) _ ?_ ?_
    · intro hm
      exact hqa (List.drop_subset _ _ hm)
    · have hd := hasSubstr_false_drop "src=\"".data (alt ++ ['\"']) i hsubalt
      rw [List.drop_append_of_le_length (le_of_lt hi)] at hd
      exact hd)]
  rw [scanFirst_append srcAttrHere ['\"', ' '] _ (by
    intro i hi
    have h2 : i < 2 := by simpa using hi
    interval_cases i
    · exact srcAttrHere_head _ _ (by decide) (by decide)
    · exact srcAttrHere_head _ _ (by decide) (by decide))]
  rw [show ("\">".data : List Char) = '\"' :: ('>' :: []) from by decide]
  have hm := srcAttrHere_data_match url ('>' :: []) hneu hqu
  rw [show ("data-src=\"".data : List Char) = 'd' :: "ata-src=\"".data from by decide,
    List.cons_append] at hm ⊢
  exact scanFirst_cons_some _ _ _ _ hm

/-- A tag with an alt attribute and a data-src attribute renders with
the alt text and the data-src URL. -/
theorem process_T4 (alt url : List Char) (hneu : url ≠ []) (hqu : ('"' : Char) ∉ url)
    (hqa : ('"' : Char) ∉ alt)
    (hsubalt : hasSubstr "src=\"".data (alt ++ ['"']) = false) :
    process_img_tag ("<img alt=\"".data ++ (alt ++ ("\" data-src=\"".data ++ (url ++ "\">".data)))) =
      "\n\n![".data ++ (alt ++ ("](".data ++
        ((if "//".data.isPrefixOf url then "https:".data ++ url else url) ++ ")\n\n".data))) := by
  rw [process_img_tag]
  rw [scan_src_T4 alt url hneu hqu hqa hsubalt]
  have haltv : scanFirst altAttrHere
      ("<img alt=\"".data ++ (alt ++ ("\" data-src=\"".data ++ (url ++ "\">".data)))) =
      some alt := by
    rw [show ("\" data-src=\"".data : List Char) = '\"' :: " data-src=\"".data from by decide]
    exact scan_alt_T4 alt _ hqa
  rw [haltv]
  rfl

/-- Claim C5 (amended): every img tag becomes an image line whose alt
defaults to the fixed placeholder word when no alt attribute is
present, whose URL is the value of the leftmost data-src= or src=
attribute occurrence in the tag text (a tag carrying only data-src
uses it; a tag carrying src before data-src uses the src value), a
protocol-relative URL is expanded with the https scheme, and a tag
with neither attribute is replaced by the empty string. -/
theorem img_tag_markdown_spec :
    (∀ url : List Char, url ≠ [] → ('"' : Char) ∉ url →
      hasSubstr "alt=\"".data ("<img data-src=\"".data ++ (url ++ "\">".data)) = false →
      process_img_tag ("<img data-src=\"".data ++ (url ++ "\">".data)) =
        "\n\n![".data ++ ("图片".data ++ ("](".data ++
          ((if "//".data.isPrefixOf url then "https:".data ++ url else url) ++ ")\n\n".data)))) ∧
    (∀ a b : List Char, a ≠ [] → ('"' : Char) ∉ a →
      hasSubstr "alt=\"".data
        ("<img src=\"".data ++ (a ++ ("\" data-src=\"".data ++ (b ++ "\">".data)))) = false →
      process_img_tag ("<img src=\"".data ++ (a ++ ("\" data-src=\"".data ++ (b ++ "\">".data)))) =
        "\n\n![".data ++ ("图片".data ++ ("](".data ++
          ((if "//".data.isPrefixOf a then "https:".data ++ a else a) ++ ")\n\n".data)))) ∧
    (∀ alt url : List Char, url ≠ [] → ('"' : Char) ∉ url → ('"' : Char) ∉ alt →
      hasSubstr "src=\"".data (alt ++ ['"']) = false →
      process_img_tag
          ("<img alt=\"".data ++ (alt ++ ("\" data-src=\"".data ++ (url ++ "\">".data)))) =
        "\n\n![".data ++ (alt ++ ("](".data ++
          ((if "//".data.isPrefixOf url then "https:".data ++ url else url) ++ ")\n\n".data)))) ∧
    process_img_tag "<img width=\"5\">".data = [] :=
  ⟨process_T1, process_T3, process_T4, by decide⟩

/-- Claim C5 counterexample: the original claim says the URL is taken
from the data-src attribute whenever that attribute is present, but on
a tag carrying src before data-src the regex alternation matches at
the leftmost attribute occurrence, so the src value a is used, not the
data-src value b. -/
theorem img_tag_markdown_cex :
    process_img_tag "<img src=\"a\" data-src=\"b\">".data = "\n\n![图片](a)\n\n".data ∧
    img_tag_sub "<p><img src=\"a\" data-src=\"b\"></p>".data = "<p>\n\n![图片](a)\n\n</p>".data ∧
    "\n\n![图片](a)\n\n".data ≠ "\n\n![图片](b)\n\n".data :=
  ⟨by decide, by decide, by decide⟩

/-- Witness for C5 (amended): the theorem applied to a concrete
protocol-relative data-src tag. -/
theorem img_tag_markdown_spec_witness :
    ("//x.org/p.png".data ≠ ([] : List Char)) ∧
    process_img_tag "<img data-src=\"//x.org/p.png\">".data =
      "\n\n![图片](https://x.org/p.png)\n\n".data := by
  constructor
  · decide
  · have h := img_tag_markdown_spec.1 "//x.org/p.png".data (by decide) (by decide) (by decide)
    rw [show ("<img data-src=\"//x.org/p.png\">".data : List Char) =
      "<img data-src=\"".data ++ ("//x.org/p.png".data ++ "\">".data) from by decide]
    rw [h]
    decide

/-- The accumulation loop preserves distinctness of the collected
URLs. -/
theorem extractGo_nodup (base : Option String) (us : List (List Char)) :
    ∀ acc : List (List Char), acc.Nodup → (extractGo base us acc).Nodup := by
  induction us with
  | nil => intro acc h; exact h
  | cons u rest ih =>
    intro acc h
    rw [extractGo]
    cases hp : processImgUrl base u with
    | none =>
      show (extractGo base rest acc).Nodup
      exact ih acc h
    | some v =>
      show (extractGo base rest (if v ∈ acc then acc else acc ++ [v])).Nodup
      refine ih _ ?_
      by_cases hv : v ∈ acc
      · rw [if_pos hv]
        exact h
      · rw [if_neg hv]
        rw [List.nodup_append]
        refine ⟨h, List.nodup_singleton v, ?_⟩
        intro a ha hmem
        rw [List.mem_singleton] at hmem
        subst hmem
        exact hv ha

/-- A protocol-relative URL is expanded to https regardless of the base
URL. -/
theorem processImgUrl_proto (b : Option String) :
    processImgUrl b "//cdn.example.com/a.png".data = some "https://cdn.example.com/a.png".data := by
  rw [processImgUrl.eq_def]
  rw [if_neg (by decide)]
  rw [if_pos (by decide)]
  decide

/-- Extraction on a single protocol-relative img yields the https URL,
for every base. -/
theorem extract_proto (b : Option String) :
    extract_image_urls "<img src=\"//cdn.example.com/a.png\">" b =
      ["https://cdn.example.com/a.png".data] := by
  rw [extract_image_urls]
  rw [show findImgSrcs "<img src=\"//cdn.example.com/a.png\">".data =
    ["//cdn.example.com/a.png".data] from by decide]
  rw [extractGo, processImgUrl_proto]
  show extractGo b []
      (if "https://cdn.example.com/a.png".data ∈ ([] : List (List Char)) then []
       else [] ++ ["https://cdn.example.com/a.png".data]) =
    ["https://cdn.example.com/a.png".data]
  rw [if_neg (by simp)]
  rfl

/-- A duplicate second occurrence of the identical URL adds no entry,
for every base. -/
theorem extract_proto_dup (b : Option String) :
    extract_image_urls "<img src=\"//cdn.example.com/a.png\"><img src=\"//cdn.example.com/a.png\">" b =
      ["https://cdn.example.com/a.png".data] := by
  rw [extract_image_urls]
  rw [show findImgSrcs
      "<img src=\"//cdn.example.com/a.png\"><img src=\"//cdn.example.com/a.png\">".data =
    ["//cdn.example.com/a.png".data, "//cdn.example.com/a.png".data] from by decide]
  rw [extractGo, processImgUrl_proto]
  show extractGo b ["//cdn.example.com/a.png".data]
      (if "https://cdn.example.com/a.png".data ∈ ([] : List (List Char)) then []
       else [] ++ ["https://cdn.example.com/a.png".data]) =
    ["https://cdn.example.com/a.png".data]
  rw [if_neg (by simp), List.nil_append]
  rw [extractGo, processImgUrl_proto]
  show extractGo b []
      (if "https://cdn.example.com/a.png".data ∈ ["https://cdn.example.com/a.png".data] then
        ["https://cdn.example.com/a.png".data]
       else ["https://cdn.example.com/a.png".data] ++ ["https://cdn.example.com/a.png".data]) =
    ["https://cdn.example.com/a.png".data]
  rw [if_pos (List.mem_singleton_self _)]
  rfl

/-- Claim C8: image URL discovery returns absolute URLs in first-seen
order with duplicates removed: the result never repeats a URL; a
protocol-relative src //cdn.example.com/a.png yields
https://cdn.example.com/a.png regardless of the base URL and a second
identical occurrence adds no entry; data URIs are skipped; the four
core HTML entities in the URL are decoded; root-relative paths are
resolved against the base URL, with the image-proxy path reconstructed
against the scheme and host of the base; distinct URLs appear in
first-seen order. -/
theorem extract_image_urls_spec :
    (∀ (html : String) (base : Option String), (extract_image_urls html base).Nodup) ∧
    (∀ base : Option String,
      extract_image_urls "<img src=\"//cdn.example.com/a.png\">" base =
        ["https://cdn.example.com/a.png".data]) ∧
    (∀ base : Option String,
      extract_image_urls
          "<img src=\"//cdn.example.com/a.png\"><img src=\"//cdn.example.com/a.png\">" base =
        ["https://cdn.example.com/a.png".data]) ∧
    extract_image_urls "<img src=\"data:image/png;base64,AA\">" none = [] ∧
    extract_image_urls "<img src=\"https://e.com/a?x=1&amp;y=2\">" none =
      ["https://e.com/a?x=1&y=2".data] ∧
    extract_image_urls "<img src=\"/img/a.png\">" (some "https://site.example.com/x") =
      ["https://site.example.com/img/a.png".data] ∧
    extract_image_urls "<img src=\"/_next/image?url=abc&amp;w=640\">"
        (some "https://site.example.com/x") =
      ["https://site.example.com/_next/image?url=abc&w=640".data] ∧
    extract_image_urls "<img src=\"https://a.com/1.png\"><img src=\"https://b.com/2.png\">" none =
      ["https://a.com/1.png".data, "https://b.com/2.png".data] :=
  ⟨fun html base => extractGo_nodup base (findImgSrcs html.data) [] List.nodup_nil,
   extract_proto, extract_proto_dup, by decide, by decide, by decide, by decide, by decide⟩

end ArticleFetcher
